import Mathlib

/-!
Verification of the HTML renderer of a markdown processor
(source: `html/renderer.go`).

The Go source is shallowly embedded: byte strings become `List Nat`
(each element an octet value), Go maps become association lists, writes
to the output `io.Writer` become returned `String`s, the mutable
renderer state becomes an explicit `RState` record, and Go panics
(nil dereference, out-of-bounds indexing, failed type assertions)
become `Option.none`.  External collaborators that are not part of the
embedded source file (HTML escaping primitives, the smartypants
processor, the regexp engine used for raw-tag stripping, the tree
walker of the `ast` package) are modelled from the spec as parameters
of the renderer, so every theorem below holds for all of them unless
it instantiates them explicitly.
-/

namespace MarkdownHtml

/-- Bytes of an ASCII string literal, as natural numbers (Go `[]byte`). -/
def bytesOf (s : String) : List Nat := s.data.map Char.toNat

/-- A byte list rendered back as a string (Go `string(b)` for ASCII data). -/
def strOfBytes (l : List Nat) : String := String.mk (l.map Char.ofNat)

/-- Source `isLetter`: ASCII letter test. -/
def isLetter (c : Nat) : Bool :=
  (decide (97 ≤ c) && decide (c ≤ 122)) || (decide (65 ≤ c) && decide (c ≤ 90))

/-- Source `isAlnum`: ASCII digit or letter. -/
def isAlnum (c : Nat) : Bool :=
  (decide (48 ≤ c) && decide (c ≤ 57)) || isLetter c

/-- ASCII lowercasing of one byte (Go `bytes.ToLower`, elementwise on ASCII). -/
def toLowerByte (c : Nat) : Nat :=
  if 65 ≤ c ∧ c ≤ 90 then c + 32 else c

/-- Source `validUris`. -/
def validUris : List (List Nat) :=
  [bytesOf "http://", bytesOf "https://", bytesOf "ftp://", bytesOf "mailto://"]

/-- Source `validPaths`. -/
def validPaths : List (List Nat) := [bytesOf "/", bytesOf "./", bytesOf "../"]

/-- One iteration of the first loop of source `isSafeLink`:
does `link` match the relative-path entry `path`? -/
def matchesPath (link path : List Nat) : Bool :=
  if path.length ≤ link.length ∧ link.take path.length = path then
    if link.length = path.length then true
    else isAlnum (link.getD path.length 0)
  else false

/-- One iteration of the second loop of source `isSafeLink`:
does `link` match the scheme entry `u` case-insensitively, followed by
an alphanumeric byte? -/
def matchesUri (link u : List Nat) : Bool :=
  if u.length < link.length ∧ (link.take u.length).map toLowerByte = u then
    isAlnum (link.getD u.length 0)
  else false

/-- Source `isSafeLink`. -/
def isSafeLink (link : List Nat) : Bool :=
  validPaths.any (matchesPath link) || validUris.any (matchesUri link)

/-- Source `isMailto`: `bytes.HasPrefix(link, "mailto:")`. -/
def isMailto (link : List Nat) : Bool :=
  link.take 7 = bytesOf "mailto:"

/-- Source `isRelativeLink`.  The Go function reads `link[0]` without a
length guard, so the empty byte string is an out-of-bounds access: we
return `none` for it. -/
def isRelativeLink (link : List Nat) : Option Bool :=
  match link with
  | [] => none
  | c0 :: rest =>
    some (
      if c0 = 35 then true
      else if rest ≠ [] ∧ c0 = 47 ∧ rest.headD 0 ≠ 47 then true
      else if rest = [] ∧ c0 = 47 then true
      else if (c0 :: rest).take 2 = bytesOf "./" then true
      else if (c0 :: rest).take 3 = bytesOf "../" then true
      else false)

/-- Source `slugify`, main loop: keep alphanumerics, collapse runs of
other bytes into a single `-` (45); `sym` records whether the previous
emitted byte was a collapsed `-`. -/
def slugifyCore : List Nat → Bool → List Nat
  | [], _ => []
  | c :: rest, sym =>
    if isAlnum c then c :: slugifyCore rest false
    else if sym then slugifyCore rest sym
    else 45 :: slugifyCore rest true

/-- Source `slugify`, first trimming scan: Go
`for a, ch = range out { if ch != '-' { break } }` leaves `a` at the
index of the first non-dash byte, or at the last index when every byte
is a dash (and `0` for the empty slice, where the loop body never runs). -/
def scanA : List Nat → Nat
  | [] => 0
  | [_] => 0
  | c :: c2 :: rest => if c ≠ 45 then 0 else 1 + scanA (c2 :: rest)

/-- Number of trailing dash bytes. -/
def trailingDashes (l : List Nat) : Nat :=
  (l.reverse.takeWhile (fun c => c == 45)).length

/-- Source `slugify`, second trimming scan: Go
`for b = len(out) - 1; b > 0; b-- { if out[b] != '-' { break } }` leaves
`b` at the largest index holding a non-dash byte, floored at `0` when
only dashes are found (natural subtraction gives exactly that floor). -/
def scanB (l : List Nat) : Nat :=
  l.length - 1 - trailingDashes l

/-- The trimming step of source `slugify`: the Go slice `out[a : b+1]`
is `(out.drop a).take (b + 1 - a)`. -/
def slugTrim (out : List Nat) : List Nat :=
  (out.drop (scanA out)).take (scanB out + 1 - scanA out)

/-- Source `slugify`. -/
def slugify (l : List Nat) : List Nat :=
  if l = [] then l
  else slugTrim (slugifyCore l false)

/-! ## Heading-ID registry -/

/-- The renderer's `headingIDs` map, as an association list; a newly
inserted binding shadows an older one for the same key. -/
abbrev HeadingIDs := List (String × Nat)

/-- Map lookup (Go `r.headingIDs[id]`). -/
def hLookup : HeadingIDs → String → Option Nat
  | [], _ => none
  | (k, v) :: rest, id => if k = id then some v else hLookup rest id

/-- Map insertion / overwrite (Go `r.headingIDs[id] = v`). -/
def hInsert (m : HeadingIDs) (k : String) (v : Nat) : HeadingIDs :=
  (k, v) :: m

/-- Length of the longest key in the map (termination measure only). -/
def maxKeyLen : HeadingIDs → Nat
  | [] => 0
  | (k, _) :: rest => max k.length (maxKeyLen rest)

theorem hLookup_some_le {m : HeadingIDs} {k : String} {v : Nat}
    (h : hLookup m k = some v) : k.length ≤ maxKeyLen m := by
  induction m with
  | nil => simp [hLookup] at h
  | cons p rest ih =>
    obtain ⟨k', v'⟩ := p
    by_cases hk : k' = k
    · subst hk
      simp [maxKeyLen]
    · simp only [hLookup, if_neg hk] at h
      have := ih h
      simp [maxKeyLen]
      omega

/-- The `for count, found := r.headingIDs[id]; found; ...` loop of
source `ensureUniqueHeadingID`.  The loop condition is re-evaluated on
the updated `id` after every iteration, so when the probe
`id-{count+1}` is already taken the function continues looping on
`id + "-1"`. -/
def ensureLoop (m : HeadingIDs) (id : String) : String × HeadingIDs :=
  match h : hLookup m id with
  | none => (id, m)
  | some count =>
    match hLookup m (id ++ "-" ++ toString (count + 1)) with
    | none =>
      ensureLoop (hInsert m id (count + 1)) (id ++ "-" ++ toString (count + 1))
    | some _ => ensureLoop m (id ++ "-1")
termination_by maxKeyLen m + 2 - id.length
decreasing_by
  · have hle : id.length ≤ maxKeyLen m := hLookup_some_le h
    have h1 : maxKeyLen (hInsert m id (count + 1)) = max id.length (maxKeyLen m) := rfl
    have h2 : (id ++ "-" ++ toString (count + 1)).length =
        id.length + 1 + (toString (count + 1)).length := by
      simp [String.length_append]
      decide
    rw [h1]
    omega
  · have hle : id.length ≤ maxKeyLen m := hLookup_some_le h
    have h2 : (id ++ "-1").length = id.length + 2 := by
      simp [String.length_append]
      decide
    omega

/-- Source `ensureUniqueHeadingID`: run the loop, then register the
resulting id with count `0` if it is not yet registered. -/
def ensureUniqueHeadingID (m : HeadingIDs) (id : String) : String × HeadingIDs :=
  match hLookup (ensureLoop m id).2 (ensureLoop m id).1 with
  | none => ((ensureLoop m id).1, hInsert (ensureLoop m id).2 (ensureLoop m id).1 0)
  | some _ => ensureLoop m id

/-! ### Unfolding lemmas for the `ensureLoop` well-founded recursion -/

theorem ensureLoop_none {m : HeadingIDs} {id : String} (h : hLookup m id = none) :
    ensureLoop m id = (id, m) := by
  rw [ensureLoop]
  split
  · rfl
  · next count heq => rw [h] at heq; exact absurd heq (by simp)

theorem ensureLoop_probe_free {m : HeadingIDs} {id : String} {count : Nat}
    (h1 : hLookup m id = some count)
    (h2 : hLookup m (id ++ "-" ++ toString (count + 1)) = none) :
    ensureLoop m id =
      ensureLoop (hInsert m id (count + 1)) (id ++ "-" ++ toString (count + 1)) := by
  rw [ensureLoop]
  split
  · next heq => rw [h1] at heq; exact absurd heq (by simp)
  · next c heq =>
    rw [h1] at heq
    obtain rfl : count = c := by injection heq
    rw [h2]

theorem ensureLoop_probe_taken {m : HeadingIDs} {id : String} {count v : Nat}
    (h1 : hLookup m id = some count)
    (h2 : hLookup m (id ++ "-" ++ toString (count + 1)) = some v) :
    ensureLoop m id = ensureLoop m (id ++ "-1") := by
  rw [ensureLoop]
  split
  · next heq => rw [h1] at heq; exact absurd heq (by simp)
  · next c heq =>
    rw [h1] at heq
    obtain rfl : count = c := by injection heq
    rw [h2]

/-- The loop of `ensureUniqueHeadingID` only stops at an id that is not
registered in the (final) map. -/
theorem ensureLoop_fresh (m : HeadingIDs) (id : String) :
    hLookup (ensureLoop m id).2 (ensureLoop m id).1 = none := by
  induction m, id using ensureLoop.induct with
  | case1 m id h => rw [ensureLoop_none h]; exact h
  | case2 m id count h1 h2 ih => rw [ensureLoop_probe_free h1 h2]; exact ih
  | case3 m id count h1 v h2 ih => rw [ensureLoop_probe_taken h1 h2]; exact ih

theorem hLookup_hInsert_mono {m : HeadingIDs} {k : String} (i : String) {v : Nat} (w : Nat)
    (h : hLookup m k = some v) : ∃ u, hLookup (hInsert m i w) k = some u := by
  by_cases hik : i = k
  · exact ⟨w, by simp [hInsert, hLookup, hik]⟩
  · exact ⟨v, by simp [hInsert, hLookup, hik, h]⟩

/-- The loop never removes a key from the registry. -/
theorem ensureLoop_mono (m : HeadingIDs) (id : String) {k : String}
    (h : (hLookup m k).isSome = true) :
    (hLookup (ensureLoop m id).2 k).isSome = true := by
  induction m, id using ensureLoop.induct with
  | case1 m id h0 => rw [ensureLoop_none h0]; exact h
  | case2 m id count h1 h2 ih =>
    rw [ensureLoop_probe_free h1 h2]
    refine ih ?_
    obtain ⟨v, hv⟩ := Option.isSome_iff_exists.mp h
    obtain ⟨u, hu⟩ := hLookup_hInsert_mono id (count + 1) hv
    rw [hu]
    rfl
  | case3 m id count h1 w h2 ih => rw [ensureLoop_probe_taken h1 h2]; exact ih h

/-- Helper: the concrete run of the loop on registry
`{a ↦ 0, a-1 ↦ 0}` and candidate `a`. -/
theorem ensureLoop_cex_trace :
    ensureLoop [("a", 0), ("a-1", 0)] "a" =
      ("a-1-1", [("a-1", 1), ("a", 0), ("a-1", 0)]) := by
  have e1 : ("a" ++ "-" ++ toString (0 + 1) : String) = "a-1" := by decide
  have e2 : ("a-1" ++ "-" ++ toString (0 + 1) : String) = "a-1-1" := by decide
  have e3 : ("a" ++ "-1" : String) = "a-1" := by decide
  rw [ensureLoop_probe_taken
        (show hLookup [("a", 0), ("a-1", 0)] "a" = some 0 by decide)
        (show hLookup [("a", 0), ("a-1", 0)] ("a" ++ "-" ++ toString (0 + 1)) = some 0 by
          rw [e1]; decide),
      e3,
      ensureLoop_probe_free
        (show hLookup [("a", 0), ("a-1", 0)] "a-1" = some 0 by decide)
        (show hLookup [("a", 0), ("a-1", 0)] ("a-1" ++ "-" ++ toString (0 + 1)) = none by
          rw [e2]; decide),
      e2]
  exact ensureLoop_none (by decide)

/-- Claim C2, counterexample.  With registry `{a ↦ 0, a-1 ↦ 0}` and
candidate `a`, the probe `a-1` is already registered; the claim says the
function then returns `a-1` (the candidate with `-1` appended,
unconditionally, without looping further).  The code instead re-enters
the loop with `a-1` and returns `a-1-1`. -/
theorem ensureUniqueHeadingID_cex :
    (ensureUniqueHeadingID [("a", 0), ("a-1", 0)] "a").1 = "a-1-1" ∧
      ("a-1-1" : String) ≠ "a-1" := by
  constructor
  · rw [ensureUniqueHeadingID, ensureLoop_cex_trace]
    decide
  · decide

/-- Claim C2, amended.  When the candidate is taken and the probe
`candidateId-{count+1}` is also taken, `ensureUniqueHeadingID` appends
`-1` to the candidate and re-enters its loop with the suffixed id
(the Go `for` condition is re-evaluated on the updated `id`); the loop
runs until it reaches an id that is not yet registered, so the returned
id never collides with any previously registered id. -/
theorem ensureUniqueHeadingID_fresh (m : HeadingIDs) (id : String) :
    hLookup m (ensureUniqueHeadingID m id).1 = none := by
  have hfst : (ensureUniqueHeadingID m id).1 = (ensureLoop m id).1 := by
    rw [ensureUniqueHeadingID]
    split <;> rfl
  rw [hfst]
  cases h : hLookup m (ensureLoop m id).1 with
  | none => rfl
  | some v =>
    have hs : (hLookup m (ensureLoop m id).1).isSome = true := by rw [h]; rfl
    have := ensureLoop_mono m id hs
    rw [ensureLoop_fresh] at this
    exact absurd this (by simp)

/-! ## Link safety (claim C3) -/

theorem take_len_append (xs ys : List Nat) : (xs ++ ys).take xs.length = xs := by
  simp

theorem getD_len_append (xs : List Nat) (c : Nat) (rest : List Nat) :
    (xs ++ c :: rest).getD xs.length 0 = c := by
  induction xs with
  | nil => rfl
  | cons x xs ih => simpa using ih

/-- The claim's characterization of `isSafeLink`, written from the
spec's words: the destination matches a relative-path allowlist entry
either exactly or followed by an ASCII alphanumeric, or a
case-insensitive scheme allowlist entry followed by an ASCII
alphanumeric. -/
def SafeLinkSpec (link : List Nat) : Prop :=
  (∃ p ∈ validPaths, link = p ∨ ∃ c rest, link = p ++ c :: rest ∧ isAlnum c = true) ∨
    ∃ u ∈ validUris, ∃ pre c rest,
      link = pre ++ c :: rest ∧ pre.map toLowerByte = u ∧ isAlnum c = true

theorem matchesPath_sound {link p : List Nat} (h : matchesPath link p = true) :
    link = p ∨ ∃ c rest, link = p ++ c :: rest ∧ isAlnum c = true := by
  rw [matchesPath] at h
  split at h
  · next hcond =>
    obtain ⟨hlen, htake⟩ := hcond
    split at h
    · next hl =>
      left
      rw [← htake, ← hl, List.take_length]
    · next hl =>
      right
      have hlt : p.length < link.length := by omega
      have hsplit : link = p ++ link.drop p.length := by
        conv_lhs => rw [← List.take_append_drop p.length link]
        rw [htake]
      cases hd : link.drop p.length with
      | nil =>
        have := List.length_drop p.length link
        rw [hd] at this
        simp at this
        omega
      | cons c rest =>
        rw [hd] at hsplit
        refine ⟨c, rest, hsplit, ?_⟩
        rw [hsplit, getD_len_append] at h
        exact h
  · exact absurd h (by simp)

theorem matchesPath_complete {link p : List Nat}
    (h : link = p ∨ ∃ c rest, link = p ++ c :: rest ∧ isAlnum c = true) :
    matchesPath link p = true := by
  rw [matchesPath]
  rcases h with rfl | ⟨c, rest, rfl, hc⟩
  · rw [if_pos ⟨le_refl _, List.take_length _⟩, if_pos rfl]
  · have hlen : p.length ≤ (p ++ c :: rest).length := by simp
    rw [if_pos ⟨hlen, take_len_append p (c :: rest)⟩,
      if_neg (by simp), getD_len_append]
    exact hc

theorem matchesUri_sound {link u : List Nat} (h : matchesUri link u = true) :
    ∃ pre c rest, link = pre ++ c :: rest ∧ pre.map toLowerByte = u ∧ isAlnum c = true := by
  rw [matchesUri] at h
  split at h
  · next hcond =>
    obtain ⟨hlen, hmap⟩ := hcond
    have hplen : (link.take u.length).length = u.length := by
      rw [List.length_take]
      omega
    have hsplit : link = link.take u.length ++ link.drop u.length :=
      (List.take_append_drop u.length link).symm
    cases hd : link.drop u.length with
    | nil =>
      have := List.length_drop u.length link
      rw [hd] at this
      simp at this
      omega
    | cons c rest =>
      rw [hd] at hsplit
      refine ⟨link.take u.length, c, rest, hsplit, hmap, ?_⟩
      have hg := getD_len_append (link.take u.length) c rest
      rw [hplen] at hg
      rw [hsplit, hg] at h
      exact h
  · exact absurd h (by simp)

theorem matchesUri_complete {link u : List Nat}
    (h : ∃ pre c rest, link = pre ++ c :: rest ∧ pre.map toLowerByte = u ∧ isAlnum c = true) :
    matchesUri link u = true := by
  obtain ⟨pre, c, rest, rfl, hmap, hc⟩ := h
  have hplen : pre.length = u.length := by rw [← hmap, List.length_map]
  rw [matchesUri,
    if_pos ⟨by simp [← hplen], by rw [← hplen, take_len_append, hmap]⟩,
    ← hplen, getD_len_append]
  exact hc

/-- `isSafeLink` accepts exactly the destinations described by the
spec's allowlist characterization. -/
theorem isSafeLink_iff_spec (link : List Nat) :
    isSafeLink link = true ↔ SafeLinkSpec link := by
  rw [isSafeLink, Bool.or_eq_true, List.any_eq_true, List.any_eq_true]
  constructor
  · rintro (⟨p, hp, hm⟩ | ⟨u, hu, hm⟩)
    · exact Or.inl ⟨p, hp, matchesPath_sound hm⟩
    · exact Or.inr ⟨u, hu, matchesUri_sound hm⟩
  · rintro (⟨p, hp, hm⟩ | ⟨u, hu, hm⟩)
    · exact Or.inl ⟨p, hp, matchesPath_complete hm⟩
    · exact Or.inr ⟨u, hu, matchesUri_complete hm⟩

/-- Claim C3, counterexample.  The claim says
`isSafeLink "http://a" = false` ("missing alphanumeric after scheme"),
but the byte after the `http://` scheme is `a`, which is alphanumeric,
so the code accepts the destination. -/
theorem isSafeLink_cex : ¬ isSafeLink (bytesOf "http://a") = false := by
  decide

/-- Claim C3, amended.  `isSafeLink "/path" = true`,
`isSafeLink "javascript:alert(1)" = false`,
`isSafeLink "http://" = false` (nothing follows the scheme), and
`isSafeLink "http://a" = true` and `isSafeLink "http://a1" = true`
(the byte after the scheme is alphanumeric); in general the function
accepts a destination iff it matches a relative-path allowlist entry
(`/`, `./`, `../`) exactly or followed by an ASCII alphanumeric, or a
case-insensitive scheme allowlist entry (`http://`, `https://`,
`ftp://`, `mailto://`) followed by an ASCII alphanumeric. -/
theorem isSafeLink_spec :
    isSafeLink (bytesOf "/path") = true ∧
      isSafeLink (bytesOf "javascript:alert(1)") = false ∧
      isSafeLink (bytesOf "http://") = false ∧
      isSafeLink (bytesOf "http://a") = true ∧
      isSafeLink (bytesOf "http://a1") = true ∧
      ∀ link, isSafeLink link = true ↔ SafeLinkSpec link :=
  ⟨by decide, by decide, by decide, by decide, by decide, isSafeLink_iff_spec⟩

/-! ## Slugify canonicalization (claim C5) -/

/-- Adjacent bytes are never both dashes. -/
def R45 (a b : Nat) : Prop := ¬(a = 45 ∧ b = 45)

/-- Every byte is alphanumeric or a dash. -/
def allAD (l : List Nat) : Prop := ∀ c ∈ l, isAlnum c = true ∨ c = 45

theorem isAlnum_ne_45 {c : Nat} (h : isAlnum c = true) : c ≠ 45 := by
  intro hc
  subst hc
  exact absurd h (by decide)

theorem allAD_tail {a : Nat} {l : List Nat} (h : allAD (a :: l)) : allAD l :=
  fun c hc => h c (List.mem_cons_of_mem _ hc)

theorem slugifyCore_allAD (l : List Nat) : ∀ sym, allAD (slugifyCore l sym) := by
  induction l with
  | nil => intro sym c hc; simp [slugifyCore] at hc
  | cons a r ih =>
    intro sym c hc
    rw [slugifyCore] at hc
    by_cases ha : isAlnum a = true
    · rw [if_pos ha] at hc
      rcases List.mem_cons.mp hc with rfl | hm
      · exact Or.inl ha
      · exact ih false c hm
    · rw [if_neg ha] at hc
      cases sym with
      | true =>
        rw [if_pos rfl] at hc
        exact ih true c hc
      | false =>
        rw [if_neg (by decide)] at hc
        rcases List.mem_cons.mp hc with rfl | hm
        · exact Or.inr rfl
        · exact ih true c hm

theorem slugifyCore_true_head (l : List Nat) :
    ∀ c, (slugifyCore l true).head? = some c → isAlnum c = true := by
  induction l with
  | nil => intro c h; simp [slugifyCore] at h
  | cons a r ih =>
    intro c h
    rw [slugifyCore] at h
    by_cases ha : isAlnum a = true
    · rw [if_pos ha] at h
      obtain rfl : a = c := by injection h
      exact ha
    · rw [if_neg ha, if_pos rfl] at h
      exact ih c h

theorem slugifyCore_chain (l : List Nat) : ∀ sym, List.Chain' R45 (slugifyCore l sym) := by
  induction l with
  | nil => intro sym; simp [slugifyCore]
  | cons a r ih =>
    intro sym
    rw [slugifyCore]
    by_cases ha : isAlnum a = true
    · rw [if_pos ha, List.chain'_cons']
      refine ⟨?_, ih false⟩
      intro y _ hr
      exact isAlnum_ne_45 ha hr.1
    · rw [if_neg ha]
      cases sym with
      | true => rw [if_pos rfl]; exact ih true
      | false =>
        rw [if_neg (by decide), List.chain'_cons']
        refine ⟨?_, ih true⟩
        intro y hy hr
        exact isAlnum_ne_45 (slugifyCore_true_head r y hy) hr.2

theorem slugifyCore_ne_nil {l : List Nat} (h : l ≠ []) : slugifyCore l false ≠ [] := by
  cases l with
  | nil => exact absurd rfl h
  | cons a r =>
    rw [slugifyCore]
    by_cases ha : isAlnum a = true
    · rw [if_pos ha]; simp
    · rw [if_neg ha, if_neg (by decide)]; simp

theorem slugifyCore_true_eq_false (r : List Nat)
    (h : ∀ c, r.head? = some c → isAlnum c = true) :
    slugifyCore r true = slugifyCore r false := by
  cases r with
  | nil => rfl
  | cons a t =>
    have ha := h a rfl
    rw [slugifyCore, slugifyCore, if_pos ha, if_pos ha]

/-- A byte string made of alphanumerics and isolated dashes, not
starting with a dash, is a fixed point of the collapsing loop. -/
theorem slugifyCore_fix : ∀ (t : List Nat), allAD t → List.Chain' R45 t →
    (∀ c, t.head? = some c → c ≠ 45) → slugifyCore t false = t
  | [], _, _, _ => rfl
  | [a], h1, _, h3 => by
    have ha : isAlnum a = true := by
      rcases h1 a (List.mem_cons_self a []) with h | h
      · exact h
      · exact absurd h (h3 a rfl)
    rw [slugifyCore, if_pos ha]
    rfl
  | a :: d :: r2, h1, h2, h3 => by
    have ha : isAlnum a = true := by
      rcases h1 a (List.mem_cons_self a _) with h | h
      · exact h
      · exact absurd h (h3 a rfl)
    rw [slugifyCore, if_pos ha]
    congr 1
    by_cases hd : d = 45
    · subst hd
      rw [slugifyCore, if_neg (by decide), if_neg (by decide)]
      congr 1
      have hchain2 : List.Chain' R45 (45 :: r2) := (List.chain'_cons'.mp h2).2
      have hr2head : ∀ c, r2.head? = some c → isAlnum c = true := by
        intro c hc
        have hne : c ≠ 45 := by
          intro hc45
          exact (List.chain'_cons'.mp hchain2).1 c hc ⟨rfl, hc45⟩
        rcases allAD_tail (allAD_tail h1) c (List.mem_of_mem_head? hc) with h | h
        · exact h
        · exact absurd h hne
      rw [slugifyCore_true_eq_false r2 hr2head]
      exact slugifyCore_fix r2 (allAD_tail (allAD_tail h1))
        (List.chain'_cons'.mp hchain2).2
        (fun c hc => isAlnum_ne_45 (hr2head c hc))
    · exact slugifyCore_fix (d :: r2) (allAD_tail h1) (List.chain'_cons'.mp h2).2
        (fun c hc => by
          obtain rfl : d = c := by injection hc
          exact hd)
termination_by t => t.length

theorem scanA_of_head_ne {l : List Nat} {c : Nat} (h : l.head? = some c) (hc : c ≠ 45) :
    scanA l = 0 := by
  cases l with
  | nil => rfl
  | cons a r =>
    obtain rfl : a = c := by injection h
    cases r with
    | nil => rfl
    | cons b r2 => rw [scanA, if_pos hc]

theorem trailingDashes_of_last_ne {l : List Nat} {c : Nat} (h : l.getLast? = some c)
    (hc : c ≠ 45) : trailingDashes l = 0 := by
  rw [trailingDashes]
  have hrev : l.reverse.head? = some c := by rw [List.head?_reverse]; exact h
  cases hr : l.reverse with
  | nil => rw [hr] at hrev; exact absurd hrev (by simp)
  | cons a t =>
    rw [hr] at hrev
    obtain rfl : a = c := by injection hrev
    rw [List.takeWhile_cons_of_neg (by simp [hc])]
    rfl

theorem trailingDashes_eq_one {l t : List Nat} (h : l.reverse = 45 :: t)
    (ht : ∀ c, t.head? = some c → c ≠ 45) : trailingDashes l = 1 := by
  rw [trailingDashes, h, List.takeWhile_cons_of_pos (by simp)]
  cases t with
  | nil => rfl
  | cons b t2 =>
    rw [List.takeWhile_cons_of_neg (by simp [ht b rfl])]
    rfl

/-- Canonical slugs: empty, a single dash, or a string of alphanumerics
and isolated dashes that starts and ends with an alphanumeric. -/
def Canon (t : List Nat) : Prop :=
  t = [] ∨ t = [45] ∨
    (allAD t ∧ List.Chain' R45 t ∧
      (∀ c, t.head? = some c → isAlnum c = true) ∧
      (∀ c, t.getLast? = some c → isAlnum c = true))

theorem slugTrim_of_ends_ne {out : List Nat} (hne : out ≠ [])
    {ch cl : Nat} (hh : out.head? = some ch) (hch : ch ≠ 45)
    (hl : out.getLast? = some cl) (hcl : cl ≠ 45) : slugTrim out = out := by
  have hlen : 1 ≤ out.length := List.length_pos.mpr hne
  rw [slugTrim, scanA_of_head_ne hh hch, scanB, trailingDashes_of_last_ne hl hcl]
  rw [List.drop_zero]
  have : out.length - 1 - 0 + 1 - 0 = out.length := by omega
  rw [this, List.take_length]

theorem slugTrim_head_dash {t : List Nat} (htne : t ≠ [])
    {c2 cl : Nat} (hh2 : t.head? = some c2) (hc2 : c2 ≠ 45)
    (hl : (45 :: t).getLast? = some cl) (hcl : cl ≠ 45) :
    slugTrim (45 :: t) = t := by
  cases t with
  | nil => exact absurd rfl htne
  | cons b r =>
    obtain rfl : b = c2 := by injection hh2
    have hA : scanA (45 :: b :: r) = 1 := by
      rw [scanA, if_neg (by simp), @scanA_of_head_ne (b :: r) b rfl hc2]
    have hT : trailingDashes (45 :: b :: r) = 0 := trailingDashes_of_last_ne hl hcl
    rw [slugTrim, hA, scanB, hT]
    have hlen : (45 :: b :: r).length = (b :: r).length + 1 := rfl
    rw [List.drop_one]
    have harith : (45 :: b :: r).length - 1 - 0 + 1 - 1 = (b :: r).length := by
      rw [hlen]; omega
    rw [harith]
    exact List.take_length _

theorem slugTrim_last_dash {init : List Nat} (hine : init ≠ [])
    {ch : Nat} (hh : init.head? = some ch) (hch : ch ≠ 45)
    (hlast : ∀ c, init.getLast? = some c → c ≠ 45) :
    slugTrim (init ++ [45]) = init := by
  have hA : scanA (init ++ [45]) = 0 := by
    refine scanA_of_head_ne ?_ hch
    rw [List.head?_append_of_ne_nil _ hine]
    exact hh
  have hrev : (init ++ [45]).reverse = 45 :: init.reverse := by simp
  have hT : trailingDashes (init ++ [45]) = 1 := by
    refine trailingDashes_eq_one hrev ?_
    intro c hc
    rw [List.head?_reverse] at hc
    exact hlast c hc
  have hlen : (init ++ [45]).length = init.length + 1 := by simp
  rw [slugTrim, hA, scanB, hT, List.drop_zero]
  have hpos : 1 ≤ init.length := List.length_pos.mpr hine
  have harith : (init ++ [45]).length - 1 - 1 + 1 - 0 = init.length := by
    rw [hlen]; omega
  rw [harith]
  exact take_len_append init [45]

theorem slugTrim_both_dash {init : List Nat} (hine : init ≠ [])
    {ch : Nat} (hh : init.head? = some ch) (hch : ch ≠ 45)
    (hlast : ∀ c, init.getLast? = some c → c ≠ 45) :
    slugTrim (45 :: (init ++ [45])) = init := by
  cases init with
  | nil => exact absurd rfl hine
  | cons b r =>
    obtain rfl : b = ch := by injection hh
    have hA : scanA (45 :: (b :: r ++ [45])) = 1 := by
      rw [show (b :: r ++ [45]) = b :: (r ++ [45]) from rfl]
      rw [scanA, if_neg (by simp), @scanA_of_head_ne (b :: (r ++ [45])) b rfl hch]
    have hrev : (45 :: (b :: r ++ [45])).reverse = 45 :: ((b :: r).reverse ++ [45]) := by
      simp
    have hT : trailingDashes (45 :: (b :: r ++ [45])) = 1 := by
      refine trailingDashes_eq_one hrev ?_
      intro c hc
      rw [List.head?_append_of_ne_nil _ (by simp), List.head?_reverse] at hc
      exact hlast c hc
    have hlen : (45 :: (b :: r ++ [45])).length = (b :: r).length + 2 := by simp
    rw [slugTrim, hA, scanB, hT, List.drop_one]
    have harith : (45 :: (b :: r ++ [45])).length - 1 - 1 + 1 - 1 = (b :: r).length := by
      rw [hlen]; omega
    simp only [List.tail_cons]
    rw [harith]
    exact take_len_append (b :: r) [45]

theorem exists_last_decomp {l : List Nat} (hl : l.getLast? = some 45)
    {c2 : Nat} (hh : l.head? = some c2) (hc2 : c2 ≠ 45) :
    ∃ init, l = init ++ [45] ∧ init ≠ [] ∧ init.head? = some c2 := by
  have hmem : 45 ∈ l.getLast? := by rw [hl]; rfl
  have heq : l.dropLast ++ [45] = l := List.dropLast_append_getLast? 45 hmem
  have hne : l.dropLast ≠ [] := by
    intro hnil
    rw [hnil, List.nil_append] at heq
    rw [← heq] at hh
    obtain rfl : (45 : Nat) = c2 := by injection hh
    exact hc2 rfl
  refine ⟨l.dropLast, heq.symm, hne, ?_⟩
  rw [← heq, List.head?_append_of_ne_nil _ hne] at hh
  exact hh

theorem chain_append_last_ne_45 {init : List Nat}
    (h : List.Chain' R45 (init ++ [45])) :
    ∀ c, init.getLast? = some c → c ≠ 45 := by
  intro c hc hc45
  subst hc45
  exact (List.chain'_append.mp h).2.2 45 (by rw [hc]; rfl) 45 rfl ⟨rfl, rfl⟩

/-- Trimming the output of the collapsing loop yields a canonical slug. -/
theorem slugTrim_canon {out : List Nat} (hne : out ≠ []) (h1 : allAD out)
    (h2 : List.Chain' R45 out) : Canon (slugTrim out) := by
  cases out with
  | nil => exact absurd rfl hne
  | cons a t =>
    have hh : (a :: t).head? = some a := rfl
    have hlne : (a :: t).getLast? = some ((a :: t).getLast (by simp)) :=
      List.getLast?_eq_getLast_of_ne_nil (by simp)
    have hclmem : (a :: t).getLast (by simp) ∈ a :: t := List.getLast_mem _
    have almem : ∀ {c : Nat}, c ∈ a :: t → c ≠ 45 → isAlnum c = true := by
      intro c hc hc45
      rcases h1 c hc with h | h
      · exact h
      · exact absurd h hc45
    by_cases ha : a = 45
    · subst ha
      by_cases hcl45 : (45 :: t).getLast (by simp) = 45
      · cases t with
        | nil =>
          right; left
          decide
        | cons b r =>
          have hb : b ≠ 45 := by
            intro hb45
            exact (List.chain'_cons'.mp h2).1 b rfl ⟨rfl, hb45⟩
          have hbal : isAlnum b = true := almem (by simp) hb
          have htl : (b :: r).getLast? = some 45 := by
            rw [← List.getLast?_cons_cons, hlne, hcl45]
          obtain ⟨init, hteq, hine, hinithead⟩ := exists_last_decomp htl rfl hb
          have hchain_t : List.Chain' R45 (init ++ [45]) := by
            rw [← hteq]
            exact (List.chain'_cons'.mp h2).2
          have hlast := chain_append_last_ne_45 hchain_t
          rw [show (45 :: b :: r) = 45 :: (init ++ [45]) from by rw [← hteq]]
          rw [slugTrim_both_dash hine hinithead hb hlast]
          right; right
          refine ⟨?_, (List.chain'_append.mp hchain_t).1, ?_, ?_⟩
          · intro c hc
            refine h1 c ?_
            rw [show (45 :: b :: r) = 45 :: (init ++ [45]) from by rw [← hteq]]
            exact List.mem_cons_of_mem _ (List.mem_append_left _ hc)
          · intro c hc
            rw [hinithead] at hc
            obtain rfl : b = c := by injection hc
            exact hbal
          · intro c hc
            refine almem ?_ (hlast c hc)
            have : c ∈ init := List.mem_of_mem_getLast? (by rw [hc]; rfl)
            rw [show (45 :: b :: r) = 45 :: (init ++ [45]) from by rw [← hteq]]
            exact List.mem_cons_of_mem _ (List.mem_append_left _ this)
      · -- head dash, last not dash
        cases t with
        | nil => exact absurd rfl hcl45
        | cons b r =>
          have hb : b ≠ 45 := by
            intro hb45
            exact (List.chain'_cons'.mp h2).1 b rfl ⟨rfl, hb45⟩
          rw [slugTrim_head_dash (by simp) (show (b :: r).head? = some b from rfl) hb hlne hcl45]
          right; right
          refine ⟨allAD_tail h1, (List.chain'_cons'.mp h2).2, ?_, ?_⟩
          · intro c hc
            obtain rfl : b = c := by injection hc
            exact almem (by simp) hb
          · intro c hc
            have hc' : (45 :: b :: r).getLast? = some c := by
              rw [List.getLast?_cons_cons]
              exact hc
            rw [hlne] at hc'
            obtain rfl : (45 :: b :: r).getLast (by simp) = c := by injection hc'
            exact almem hclmem hcl45
    · have haal : isAlnum a = true := almem (by simp) ha
      by_cases hcl45 : (a :: t).getLast (by simp) = 45
      · -- last dash only
        have hl45 : (a :: t).getLast? = some 45 := by rw [hlne, hcl45]
        obtain ⟨init, hteq, hine, hinithead⟩ := exists_last_decomp hl45 hh ha
        have hchain : List.Chain' R45 (init ++ [45]) := by rw [← hteq]; exact h2
        have hlast := chain_append_last_ne_45 hchain
        rw [hteq, slugTrim_last_dash hine hinithead ha hlast]
        right; right
        refine ⟨?_, (List.chain'_append.mp hchain).1, ?_, ?_⟩
        · intro c hc
          refine h1 c ?_
          rw [hteq]
          exact List.mem_append_left _ hc
        · intro c hc
          rw [hinithead] at hc
          obtain rfl : a = c := by injection hc
          exact haal
        · intro c hc
          refine almem ?_ (hlast c hc)
          have : c ∈ init := List.mem_of_mem_getLast? (by rw [hc]; rfl)
          rw [hteq]
          exact List.mem_append_left _ this
      · -- neither end dash
        rw [slugTrim_of_ends_ne (by simp) hh ha hlne hcl45]
        right; right
        refine ⟨h1, h2, ?_, ?_⟩
        · intro c hc
          obtain rfl : a = c := by injection hc
          exact haal
        · intro c hc
          rw [hlne] at hc
          obtain rfl : (a :: t).getLast (by simp) = c := by injection hc
          exact almem hclmem hcl45

theorem slugify_canon (l : List Nat) : Canon (slugify l) := by
  by_cases hl : l = []
  · subst hl; left; rfl
  · rw [slugify, if_neg hl]
    exact slugTrim_canon (slugifyCore_ne_nil hl) (slugifyCore_allAD l false)
      (slugifyCore_chain l false)

theorem slugify_canon_fix {t : List Nat} (h : Canon t) : slugify t = t := by
  rcases h with rfl | rfl | ⟨h1, h2, hh, hl⟩
  · rfl
  · decide
  · by_cases hne : t = []
    · subst hne; rfl
    · rw [slugify, if_neg hne,
        slugifyCore_fix t h1 h2 (fun c hc => isAlnum_ne_45 (hh c hc))]
      obtain ⟨ch, hch⟩ : ∃ c, t.head? = some c := by
        cases t with
        | nil => exact absurd rfl hne
        | cons a r => exact ⟨a, rfl⟩
      have hlast : t.getLast? = some (t.getLast hne) :=
        List.getLast?_eq_getLast_of_ne_nil hne
      exact slugTrim_of_ends_ne hne hch (isAlnum_ne_45 (hh ch hch)) hlast
        (isAlnum_ne_45 (hl _ hlast))

/-- Claim C5, counterexample.  For the input consisting of the single
byte `-` (45) the output of `slugify` is `-` itself: a non-empty output
that both starts and ends with a dash, contradicting the claim that the
output never starts or ends with `-` unless it is empty. -/
theorem slugify_cex :
    slugify [45] ≠ [] ∧ (slugify [45]).headD 0 = 45 ∧ (slugify [45]).getLastD 0 = 45 := by
  decide

/-- Claim C5, amended.  `slugify` is idempotent on every byte string,
and its output never starts or ends with `-` unless the output is empty
or is the single byte `-` (the latter happens exactly when the input is
non-empty but contains no alphanumeric byte). -/
theorem slugify_idempotent_trimmed (x : List Nat) :
    slugify (slugify x) = slugify x ∧
      (slugify x ≠ [] → slugify x ≠ [45] →
        (slugify x).headD 0 ≠ 45 ∧ (slugify x).getLastD 0 ≠ 45) := by
  refine ⟨slugify_canon_fix (slugify_canon x), ?_⟩
  intro hne h45
  rcases slugify_canon x with h | h | ⟨h1, h2, hh, hl⟩
  · exact absurd h hne
  · exact absurd h h45
  · obtain ⟨ch, hch⟩ : ∃ c, (slugify x).head? = some c := by
      cases hsx : slugify x with
      | nil => exact absurd hsx hne
      | cons a r => exact ⟨a, rfl⟩
    have hlast : (slugify x).getLast? = some ((slugify x).getLast hne) :=
      List.getLast?_eq_getLast_of_ne_nil hne
    constructor
    · rw [List.headD_eq_head?_getD, hch]
      exact isAlnum_ne_45 (hh ch hch)
    · rw [List.getLastD_eq_getLast?, hlast]
      exact isAlnum_ne_45 (hl _ hlast)

/-- Witness for `slugify_idempotent_trimmed` at the concrete input
`"a b"`. -/
theorem slugify_idempotent_trimmed_witness :
    slugify (slugify (bytesOf "a b")) = slugify (bytesOf "a b") ∧
      ((bytesOf "a b" |> slugify).headD 0 ≠ 45 ∧
        (bytesOf "a b" |> slugify).getLastD 0 ≠ 45) :=
  ⟨(slugify_idempotent_trimmed (bytesOf "a b")).1,
    (slugify_idempotent_trimmed (bytesOf "a b")).2 (by decide) (by decide)⟩

/-! ## Table-of-contents builder (claim C4) -/

/-- The `"\n<ul>\n<li>"` opening pair written by source `writeTOC`. -/
def tocOpenPair : String := "\n<ul>\n<li>"

/-- The `"</li>\n</ul>"` closing pair written by source `writeTOC`. -/
def tocClosePair : String := "</li>\n</ul>"

/-- The `"</li>\n\n<li>"` sibling transition written by source `writeTOC`. -/
def tocSibling : String := "</li>\n\n<li>"

def repeatStr (s : String) : Nat → String
  | 0 => ""
  | n + 1 => s ++ repeatStr s n

/-- The anchor opened for the `n`-th qualifying heading
(`fmt.Fprintf(&buf, "<a href=\x22#toc_%d\x22>", headingCount)`). -/
def tocAnchor (n : Nat) : String := "<a href=\"#toc_" ++ toString n ++ "\">"

/-- Source `writeTOC`, nesting transition emitted on entering a heading
of level `level` with current nesting level `tocLevel`: a sibling
`</li>…<li>` when the levels are equal, `tocLevel - level` closing
pairs followed by a sibling transition when the level drops, and
`level - tocLevel` opening pairs when it rises.  In every branch the
new `tocLevel` is `level`. -/
def tocTransition (tocLevel level : Nat) : String :=
  if level = tocLevel then tocSibling
  else if level < tocLevel then repeatStr tocClosePair (tocLevel - level) ++ tocSibling
  else repeatStr tocOpenPair (level - tocLevel)

/-- Source `writeTOC`, modelled over the list of levels of the
qualifying (non-titleblock) headings of the document in visitation
order, each heading with empty inline content: returns the buffer
contents (transition, `<a href="#toc_N">`, `</a>` per heading, then
`tocLevel` closing pairs after the walk) together with the list of
`toc_{headingCount}` ids assigned to the headings, in order. -/
def writeTOCAux : Nat → Nat → List Nat → String × List String
  | tocLevel, _, [] => (repeatStr tocClosePair tocLevel, [])
  | tocLevel, count, lvl :: rest =>
    let r := writeTOCAux lvl (count + 1) rest
    (tocTransition tocLevel lvl ++ tocAnchor count ++ "</a>" ++ r.1,
      ("toc_" ++ toString count) :: r.2)

/-- Source `writeTOC` on a whole document: `tocLevel` and
`headingCount` start at `0`. -/
def writeTOCBuf (levels : List Nat) : String × List String :=
  writeTOCAux 0 0 levels

set_option maxRecDepth 8000 in
/-- Claim C4, counterexample.  On heading levels `[1,2,2,1,3]` the
claim predicts, at the second level-1 heading, two closing `(li,ul)`
pairs followed by a fresh `ul/li` opening pair, and after the walk two
closing pairs; the code instead closes one `(li,ul)` pair and emits a
sibling `</li>…<li>` transition there, and closes three pairs after the
walk (the last heading has level 3). -/
theorem writeTOCBuf_cex :
    (writeTOCBuf [1, 2, 2, 1, 3]).1 ≠
      tocOpenPair ++ tocAnchor 0 ++ "</a>" ++
      tocOpenPair ++ tocAnchor 1 ++ "</a>" ++
      tocSibling ++ tocAnchor 2 ++ "</a>" ++
      tocClosePair ++ tocClosePair ++ tocOpenPair ++ tocAnchor 3 ++ "</a>" ++
      tocOpenPair ++ tocOpenPair ++ tocAnchor 4 ++ "</a>" ++
      tocClosePair ++ tocClosePair := by
  decide

set_option maxRecDepth 8000 in
/-- Claim C4, amended.  On heading levels `[1,2,2,1,3]` the builder
emits: one `ul/li` opening pair at the first level-1 heading; one
opening pair at the first level-2 heading; a sibling `</li>…<li>`
transition at the second level-2 heading; one closing `(li,ul)` pair
followed by a sibling `</li>…<li>` transition at the second level-1
heading; two opening pairs at the level-3 heading; and, after the walk,
three closing `(li,ul)` pairs.  Heading `i` is assigned the fresh id
`toc_i` in visitation order. -/
theorem writeTOCBuf_trace :
    writeTOCBuf [1, 2, 2, 1, 3] =
      (tocOpenPair ++ tocAnchor 0 ++ "</a>" ++
        tocOpenPair ++ tocAnchor 1 ++ "</a>" ++
        tocSibling ++ tocAnchor 2 ++ "</a>" ++
        tocClosePair ++ tocSibling ++ tocAnchor 3 ++ "</a>" ++
        tocOpenPair ++ tocOpenPair ++ tocAnchor 4 ++ "</a>" ++
        tocClosePair ++ tocClosePair ++ tocClosePair,
        ["toc_0", "toc_1", "toc_2", "toc_3", "toc_4"]) := by
  decide

/-! ## The HTML renderer -/

/-- Renderer `Flags` (source bitmask), one Boolean per flag used by the
embedded code. -/
structure Flags where
  skipHTML : Bool
  skipImages : Bool
  skipLinks : Bool
  safelink : Bool
  nofollowLinks : Bool
  noreferrerLinks : Bool
  hrefTargetBlank : Bool
  useXHTML : Bool
  footnoteReturnLinks : Bool
  smartypants : Bool

/-- Source `needSkipLink`. -/
def needSkipLink (flags : Flags) (dest : List Nat) : Bool :=
  if flags.skipLinks then true
  else flags.safelink && !isSafeLink dest && !isMailto dest

/-- Table cell alignment (source `ast.CellAlignFlags` as used by
`cellAlignment`). -/
inductive CellAlign where
  | alignNone
  | alignLeft
  | alignRight
  | alignCenter

/-- Source `cellAlignment`. -/
def cellAlignment : CellAlign → String
  | .alignLeft => "left"
  | .alignRight => "right"
  | .alignCenter => "center"
  | .alignNone => ""

/-- The tagged variant of tree nodes (`ast.NodeData` implementations).
`unknown` stands for any `ast.NodeData` implementation outside the
fixed enumeration handled by `RenderNode`. -/
inductive NodeData where
  | text (lit : List Nat)
  | softbreak
  | hardbreak
  | emph
  | strong
  | del
  | blockQuote
  | link (dest title : List Nat) (noteID : Nat)
  | image (dest : List Nat) (title : Option (List Nat))
  | code (lit : List Nat)
  | codeBlock (lit info : List Nat)
  | document
  | paragraph
  | htmlSpan (lit : List Nat)
  | htmlBlock (lit : List Nat)
  | heading (level : Nat) (headingID : String) (isTitleblock : Bool)
  | horizontalRule
  | list (ordered definition tight isFootnotesList : Bool)
  | listItem (ordered definition term : Bool) (refLink : Option (List Nat))
  | table
  | tableCell (isHeader : Bool) (align : CellAlign)
  | tableHead
  | tableBody
  | tableRow
  | unknown (tag : String)

/-- A tree node: its data and its ordered children. -/
inductive Node where
  | mk (data : NodeData) (children : List Node)

def Node.dataOf : Node → NodeData
  | .mk d _ => d

def Node.childrenOf : Node → List Node
  | .mk _ cs => cs

/-- Source `isLinkData`. -/
def isLinkData : NodeData → Bool
  | .link _ _ _ => true
  | _ => false

/-- Source `isListData`. -/
def isListData : NodeData → Bool
  | .list _ _ _ _ => true
  | _ => false

/-- Source `isListTight`. -/
def isListTight : NodeData → Bool
  | .list _ _ t _ => t
  | _ => false

/-- Source `isListItemData`. -/
def isListItemData : NodeData → Bool
  | .listItem _ _ _ _ => true
  | _ => false

/-- Source `isListItemTerm` (on the node's data). -/
def isListItemTerm : NodeData → Bool
  | .listItem _ _ t _ => t
  | _ => false

/-- Source `isBlockQuoteData`. -/
def isBlockQuoteData : NodeData → Bool
  | .blockQuote => true
  | _ => false

/-- Source `isDocumentData`. -/
def isDocumentData : NodeData → Bool
  | .document => true
  | _ => false

/-- Walk control signal (source `ast.WalkStatus`). -/
inductive WalkStatus where
  | goToNext
  | skipChildren
  | terminate
deriving DecidableEq

/-- Modelled from the spec: the external collaborators the renderer
calls into byte-for-byte — the HTML escaping primitives of `esc.go`
(`EscapeHTML`, `escLink`), the smartypants processor, and the regexp
engine backing the raw-tag stripper applied by the output sink when the
suppression depth is positive.  The renderer is parameterized over
them; theorems hold for every choice unless they instantiate one. -/
structure Prims where
  escapeHTML : List Nat → String
  escLink : List Nat → String
  spProcess : String → String
  strip : String → String

/-- Source `RendererOptions` (fields used by the embedded code;
`absPre`, `footnoteAnchorPre`, `headingIDPre`, `headingIDSuf` are the
Go `AbsolutePrefix`, `FootnoteAnchorPrefix`, `HeadingIDPrefix`,
`HeadingIDSuffix`). -/
structure RendererOptions where
  absPre : List Nat
  footnoteAnchorPre : String
  footnoteReturnLinkContents : String
  headingIDPre : String
  headingIDSuf : String
  flags : Flags
  renderNodeHook : Option (NodeData → Bool → Option (String × WalkStatus))

/-- The mutable renderer session state (`lastOutputLen`,
`disableTags`, `headingIDs` of source `Renderer`). -/
structure RState where
  lastOutputLen : Nat
  disableTags : Nat
  headingIDs : HeadingIDs
deriving DecidableEq

/-- Source `Renderer.outs`: record the (pre-strip) length of the
write, strip raw tags when the suppression depth is positive, emit. -/
def stOuts (P : Prims) (st : RState) (s : String) : String × RState :=
  ((if st.disableTags > 0 then P.strip s else s), { st with lastOutputLen := s.length })

/-- Source `Renderer.out` (byte-slice variant, used for literals). -/
def stOut (P : Prims) (st : RState) (d : List Nat) : String × RState :=
  ((if st.disableTags > 0 then P.strip (strOfBytes d) else strOfBytes d),
    { st with lastOutputLen := d.length })

/-- Source `Renderer.cr`: a newline only after a non-empty write. -/
def stCr (P : Prims) (st : RState) : String × RState :=
  if st.lastOutputLen > 0 then stOuts P st "\n" else ("", st)

/-- Source `Renderer.outTag`: tag plus space-joined attributes, written
directly (not through the stripping sink); `lastOutputLen` is set
to 1. -/
def stOutTag (st : RState) (name : String) (attrs : List String) : String × RState :=
  (name ++ (if attrs = [] then "" else " " ++ String.intercalate " " attrs) ++ ">",
    { st with lastOutputLen := 1 })

/-- Source `Renderer.outOneOf`. -/
def stOutOneOf (P : Prims) (st : RState) (b : Bool) (first second : String) :
    String × RState :=
  if b then stOuts P st first else stOuts P st second

/-- Source `Renderer.outOneOfCr`. -/
def stOutOneOfCr (P : Prims) (st : RState) (b : Bool) (first second : String) :
    String × RState :=
  if b then
    let r1 := stCr P st
    let r2 := stOuts P r1.2 first
    (r1.1 ++ r2.1, r2.2)
  else
    let r1 := stOuts P st second
    let r2 := stCr P r1.2
    (r1.1 ++ r2.1, r2.2)

/-- Source `Renderer.outHRTag`. -/
def stOutHR (P : Prims) (flags : Flags) (st : RState) : String × RState :=
  stOutOneOf P st (!flags.useXHTML) "<hr>" "<hr />"

/-- Source `Renderer.addAbsPrefix`.  When the option is set,
`isRelativeLink` is consulted; on an empty destination that read is
out of bounds (`none`). -/
def addAbsPre (opts : RendererOptions) (link : List Nat) : Option (List Nat) :=
  if opts.absPre = [] then some link
  else
    match isRelativeLink link with
    | none => none
    | some rel =>
      if rel && link.headD 0 ≠ 46 then
        some (opts.absPre ++ (if link.headD 0 ≠ 47 then [47] else []) ++ link)
      else some link

/-- Source `appendLinkAttrs`: nothing for relative links; otherwise
`target="_blank"` is appended first (when enabled), then the `rel`
attribute whose value joins the enabled `nofollow` / `noreferrer`
tokens. -/
def appendLinkAttrs (attrs : List String) (flags : Flags) (link : List Nat) :
    Option (List String) :=
  match isRelativeLink link with
  | none => none
  | some true => some attrs
  | some false =>
    let val := (if flags.nofollowLinks then ["nofollow"] else []) ++
      (if flags.noreferrerLinks then ["noreferrer"] else [])
    let attrs2 := if flags.hrefTargetBlank then attrs ++ ["target=\"_blank\""] else attrs
    if val = [] then some attrs2
    else some (attrs2 ++ ["rel=\"" ++ String.intercalate " " val ++ "\""])

/-- Source `footnoteRef`. -/
def footnoteRef (pre : String) (dest : List Nat) (noteID : Nat) : String :=
  "<sup class=\"footnote-ref\" id=\"fnref:" ++ (pre ++ strOfBytes (slugify dest)) ++
    "\">" ++ ("<a rel=\"footnote\" href=\"#fn:" ++ (pre ++ strOfBytes (slugify dest)) ++
    "\">" ++ toString noteID ++ "</a>") ++ "</sup>"

/-- Source `footnoteItem`. -/
def footnoteItem (pre : String) (slug : List Nat) : String :=
  "<li id=\"fn:" ++ pre ++ strOfBytes slug ++ "\">"

/-- Source `footnoteReturnLink`. -/
def footnoteReturnLink (pre returnLink : String) (slug : List Nat) : String :=
  " <a class=\"footnote-return\" href=\"#fnref:" ++ pre ++ strOfBytes slug ++ "\">" ++
    returnLink ++ "</a>"

/-- Source `itemOpenCR`; the Go type assertion
`node.Parent.Data.(*ast.ListData)` fails (`none`) when the item's
parent is not a list. -/
def itemOpenCR (prev : Option NodeData) (parent : NodeData) : Option Bool :=
  match prev with
  | none => some false
  | some _ =>
    match parent with
    | .list _ definition tight _ => some (!tight && !definition)
    | _ => none

/-- Source `skipParagraphTags`: requires the grandparent to be a list,
then suppresses when that list is tight or the parent is a
definition-list term item. -/
def skipParagraphTags (parent : NodeData) (grandparent : Option NodeData) : Bool :=
  match grandparent with
  | none => false
  | some gp =>
    if isListData gp then isListTight gp || isListItemTerm parent
    else false

/-- Source `appendLanguageAttr`. -/
def appendLanguageAttr (attrs : List String) (info : List Nat) : List String :=
  if info = [] then attrs
  else
    attrs ++ ["class=\"language-" ++
      strOfBytes (info.take (info.findIdx (fun c => c == 9 || c == 32))) ++ "\""]

/-- Source `headingOpenTagFromLevel`. -/
def headingOpenTagFromLevel (level : Nat) : String :=
  if level < 1 ∨ level > 5 then "<h6"
  else ["<h1", "<h2", "<h3", "<h4", "<h5"].getD (level - 1) "<h6"

/-- Source `headingCloseTagFromLevel`. -/
def headingCloseTagFromLevel (level : Nat) : String :=
  if level < 1 ∨ level > 5 then "</h6>"
  else ["</h1>", "</h2>", "</h3>", "</h4>", "</h5>"].getD (level - 1) "</h6>"

/-! ### Per-node renderers (source `Renderer.*`) -/

/-- Source `Renderer.text`: writes directly to the output (bypassing
the stripping sink and `lastOutputLen`); link-parent text goes through
`escLink`, everything else through `EscapeHTML` (then smartypants when
enabled).  The Go code dereferences `node.Parent` in the non-smartypants
branch. -/
def textR (P : Prims) (flags : Flags) (parent : Option NodeData) (lit : List Nat) :
    Option String :=
  if flags.smartypants then some (P.spProcess (P.escapeHTML lit))
  else
    match parent with
    | none => none
    | some pd => some (if isLinkData pd then P.escLink lit else P.escapeHTML lit)

/-- Source `Renderer.hardBreak`. -/
def hardBreakR (P : Prims) (flags : Flags) (st : RState) : String × RState :=
  let r1 := stOutOneOf P st (!flags.useXHTML) "<br>" "<br />"
  let r2 := stCr P r1.2
  (r1.1 ++ r2.1, r2.2)

/-- Source `Renderer.span`. -/
def spanR (P : Prims) (flags : Flags) (st : RState) (lit : List Nat) : String × RState :=
  if flags.skipHTML then ("", st) else stOut P st lit

/-- Source `Renderer.htmlBlock`. -/
def htmlBlockR (P : Prims) (flags : Flags) (st : RState) (lit : List Nat) :
    String × RState :=
  if flags.skipHTML then ("", st)
  else
    let r1 := stCr P st
    let r2 := stOut P r1.2 lit
    let r3 := stCr P r2.2
    (r1.1 ++ r2.1 ++ r3.1, r3.2)

/-- Source `Renderer.code`. -/
def codeR (P : Prims) (st : RState) (lit : List Nat) : String × RState :=
  let r1 := stOuts P st "<code>"
  let r2 := stOuts P r1.2 "</code>"
  (r1.1 ++ P.escapeHTML lit ++ r2.1, r2.2)

/-- The attribute list composed by source `Renderer.linkEnter` for a
non-footnote link: `href` first, then `appendLinkAttrs`, then the
optional title. -/
def linkEnterAttrs (P : Prims) (flags : Flags) (dest title : List Nat) :
    Option (List String) :=
  match appendLinkAttrs ["href=\"" ++ P.escLink dest ++ "\""] flags dest with
  | none => none
  | some attrs =>
    some (if title ≠ [] then attrs ++ ["title=\"" ++ P.escapeHTML title ++ "\""] else attrs)

/-- Source `Renderer.linkEnter`. -/
def linkEnterR (P : Prims) (opts : RendererOptions) (dest0 title : List Nat)
    (noteID : Nat) (st : RState) : Option (String × RState) :=
  match addAbsPre opts dest0 with
  | none => none
  | some dest =>
    if noteID ≠ 0 then
      some (stOuts P st (footnoteRef opts.footnoteAnchorPre dest0 noteID))
    else
      match linkEnterAttrs P opts.flags dest title with
      | none => none
      | some attrs => some (stOutTag st "<a" attrs)

/-- Source `Renderer.linkExit`. -/
def linkExitR (P : Prims) (noteID : Nat) (st : RState) : String × RState :=
  if noteID = 0 then stOuts P st "</a>" else ("", st)

/-- Source `Renderer.link`: a destination failing the skip/safety
policy renders as a neutral `<tt>`/`</tt>` span. -/
def linkR (P : Prims) (opts : RendererOptions) (dest title : List Nat) (noteID : Nat)
    (entering : Bool) (st : RState) : Option (String × RState) :=
  if needSkipLink opts.flags dest then some (stOutOneOf P st entering "<tt>" "</tt>")
  else if entering then linkEnterR P opts dest title noteID st
  else some (linkExitR P noteID st)

/-- Source `Renderer.imageEnter`: the `<img src="…" alt="` prefix is
written only at suppression depth 0; the depth is always
incremented. -/
def imageEnterR (P : Prims) (opts : RendererOptions) (dest0 : List Nat) (st : RState) :
    Option (String × RState) :=
  match addAbsPre opts dest0 with
  | none => none
  | some dest =>
    if st.disableTags = 0 then
      let r1 := stOuts P st "<img src=\""
      let r2 := stOuts P r1.2 "\" alt=\""
      some (r1.1 ++ P.escLink dest ++ r2.1,
        { r2.2 with disableTags := r2.2.disableTags + 1 })
    else some ("", { st with disableTags := st.disableTags + 1 })

/-- The post-decrement body of source `Renderer.imageExit`. -/
def imageExitBody (P : Prims) (title : Option (List Nat)) (st1 : RState) :
    String × RState :=
  if st1.disableTags = 0 then
    match title with
    | some t =>
      let r1 := stOuts P st1 "\" title=\""
      let r2 := stOuts P r1.2 "\" />"
      (r1.1 ++ P.escapeHTML t ++ r2.1, r2.2)
    | none => stOuts P st1 "\" />"
  else ("", st1)

/-- Source `Renderer.imageExit`: the depth is always decremented; the
optional `" title="…"` and closing `" />` are written only when the
depth then reaches 0. -/
def imageExitR (P : Prims) (title : Option (List Nat)) (st : RState) : String × RState :=
  imageExitBody P title { st with disableTags := st.disableTags - 1 }

/-- The previous-sibling kinds after which source
`Renderer.paragraphEnter` emits a conditional newline. -/
def paragraphPrevCR : NodeData → Bool
  | .htmlBlock _ => true
  | .list _ _ _ _ => true
  | .paragraph => true
  | .heading _ _ _ => true
  | .codeBlock _ _ => true
  | .blockQuote => true
  | .horizontalRule => true
  | _ => false

/-- Source `Renderer.paragraphEnter`. -/
def paragraphEnterR (P : Prims) (parent : NodeData) (prev : Option NodeData)
    (st : RState) : String × RState :=
  let r1 :=
    match prev with
    | some pd => if paragraphPrevCR pd then stCr P st else ("", st)
    | none => ("", st)
  let r2 := if isBlockQuoteData parent && prev.isNone then stCr P r1.2 else ("", r1.2)
  let r3 := stOuts P r2.2 "<p>"
  (r1.1 ++ r2.1 ++ r3.1, r3.2)

/-- Source `Renderer.paragraphExit`. -/
def paragraphExitR (P : Prims) (parent : NodeData) (next : Option NodeData)
    (st : RState) : String × RState :=
  let r1 := stOuts P st "</p>"
  if !(isListItemData parent && next.isNone) then
    let r2 := stCr P r1.2
    (r1.1 ++ r2.1, r2.2)
  else r1

/-- Source `Renderer.paragraph`. -/
def paragraphR (P : Prims) (parent : NodeData) (grandparent : Option NodeData)
    (prev next : Option NodeData) (entering : Bool) (st : RState) : String × RState :=
  if skipParagraphTags parent grandparent then ("", st)
  else if entering then paragraphEnterR P parent prev st
  else paragraphExitR P parent next st

/-- Source `Renderer.headingEnter`. -/
def headingEnterR (P : Prims) (opts : RendererOptions) (level : Nat) (hid : String)
    (isTitleblock : Bool) (st : RState) : String × RState :=
  let attrs0 : List String := if isTitleblock then ["class=\"title\""] else []
  let p :=
    if hid ≠ "" then
      let r := ensureUniqueHeadingID st.headingIDs hid
      let id1 := if opts.headingIDPre ≠ "" then opts.headingIDPre ++ r.1 else r.1
      let id2 := if opts.headingIDSuf ≠ "" then id1 ++ opts.headingIDSuf else id1
      (attrs0 ++ ["id=\"" ++ id2 ++ "\""], { st with headingIDs := r.2 })
    else (attrs0, st)
  let r1 := stCr P p.2
  let r2 := stOutTag r1.2 (headingOpenTagFromLevel level) p.1
  (r1.1 ++ r2.1, r2.2)

/-- Source `Renderer.headingExit`. -/
def headingExitR (P : Prims) (level : Nat) (parent : NodeData)
    (next : Option NodeData) (st : RState) : String × RState :=
  let r1 := stOuts P st (headingCloseTagFromLevel level)
  if !(isListItemData parent && next.isNone) then
    let r2 := stCr P r1.2
    (r1.1 ++ r2.1, r2.2)
  else r1

/-- Source `Renderer.horizontalRule`. -/
def horizontalRuleR (P : Prims) (flags : Flags) (st : RState) : String × RState :=
  let r1 := stCr P st
  let r2 := stOutHR P flags r1.2
  let r3 := stCr P r2.2
  (r1.1 ++ r2.1 ++ r3.1, r3.2)

/-- The footnotes-list preamble of source `Renderer.listEnter`. -/
def listEnterNotes (P : Prims) (flags : Flags) (isFootnotes : Bool) (st : RState) :
    String × RState :=
  if isFootnotes then
    let a := stOuts P st "\n<div class=\"footnotes\">\n\n"
    let b := stOutHR P flags a.2
    let c := stCr P b.2
    (a.1 ++ b.1 ++ c.1, c.2)
  else ("", st)

/-- The nested-tight-list conditional newline of source
`Renderer.listEnter`: when the parent is a list item the Go code
dereferences the grandparent (`none` when absent). -/
def listEnterNested (P : Prims) (parent : NodeData) (grandparent : Option NodeData)
    (st : RState) : Option (String × RState) :=
  if isListItemData parent then
    match grandparent with
    | none => none
    | some g => some (if isListTight g then stCr P st else ("", st))
  else some ("", st)

/-- Source `Renderer.listEnter`. -/
def listEnterR (P : Prims) (opts : RendererOptions) (parent : NodeData)
    (grandparent : Option NodeData) (ordered definition _tight isFootnotes : Bool)
    (st : RState) : Option (String × RState) :=
  let r0 := listEnterNotes P opts.flags isFootnotes st
  let r1 := stCr P r0.2
  match listEnterNested P parent grandparent r1.2 with
  | none => none
  | some r2 =>
    let openTag := if definition then "<dl" else if ordered then "<ol" else "<ul"
    let r3 := stOutTag r2.2 openTag []
    let r4 := stCr P r3.2
    some (r0.1 ++ r1.1 ++ r2.1 ++ r3.1 ++ r4.1, r4.2)

/-- Source `Renderer.listExit`. -/
def listExitR (P : Prims) (parent : NodeData) (next : Option NodeData)
    (ordered definition isFootnotes : Bool) (st : RState) : String × RState :=
  let closeTag := if definition then "</dl>" else if ordered then "</ol>" else "</ul>"
  let r1 := stOuts P st closeTag
  let r2 := if isListItemData parent && next.isSome then stCr P r1.2 else ("", r1.2)
  let r3 :=
    if isDocumentData parent || isBlockQuoteData parent then stCr P r2.2 else ("", r2.2)
  let r4 := if isFootnotes then stOuts P r3.2 "\n</div>\n" else ("", r3.2)
  (r1.1 ++ r2.1 ++ r3.1 ++ r4.1, r4.2)

/-- Source `Renderer.listItemEnter`. -/
def listItemEnterR (P : Prims) (opts : RendererOptions) (prev : Option NodeData)
    (parent : NodeData) (definition term : Bool) (refLink : Option (List Nat))
    (st : RState) : Option (String × RState) :=
  match itemOpenCR prev parent with
  | none => none
  | some doCR =>
    let r1 := if doCR then stCr P st else ("", st)
    match refLink with
    | some rl =>
      let r2 := stOuts P r1.2 (footnoteItem opts.footnoteAnchorPre (slugify rl))
      some (r1.1 ++ r2.1, r2.2)
    | none =>
      let openTag := if term then "<dt>" else if definition then "<dd>" else "<li>"
      let r2 := stOuts P r1.2 openTag
      some (r1.1 ++ r2.1, r2.2)

/-- Source `Renderer.listItemExit`. -/
def listItemExitR (P : Prims) (opts : RendererOptions) (definition term : Bool)
    (refLink : Option (List Nat)) (st : RState) : String × RState :=
  let r0 :=
    match refLink with
    | some rl =>
      if opts.flags.footnoteReturnLinks then
        stOuts P st (footnoteReturnLink opts.footnoteAnchorPre
          opts.footnoteReturnLinkContents (slugify rl))
      else ("", st)
    | none => ("", st)
  let closeTag := if term then "</dt>" else if definition then "</dd>" else "</li>"
  let r1 := stOuts P r0.2 closeTag
  let r2 := stCr P r1.2
  (r0.1 ++ r1.1 ++ r2.1, r2.2)

/-- Source `Renderer.codeBlock`. -/
def codeBlockR (P : Prims) (parent : NodeData) (lit info : List Nat) (st : RState) :
    String × RState :=
  let r1 := stCr P st
  let r2 := stOuts P r1.2 "<pre>"
  let r3 := stOutTag r2.2 "<code" (appendLanguageAttr [] info)
  let r4 := stOuts P r3.2 "</code>"
  let r5 := stOuts P r4.2 "</pre>"
  if isListItemData parent then
    (r1.1 ++ r2.1 ++ r3.1 ++ P.escapeHTML lit ++ r4.1 ++ r5.1, r5.2)
  else
    let r6 := stCr P r5.2
    (r1.1 ++ r2.1 ++ r3.1 ++ P.escapeHTML lit ++ r4.1 ++ r5.1 ++ r6.1, r6.2)

/-- Source `Renderer.tableCell`. -/
def tableCellR (P : Prims) (prev : Option NodeData) (isHeader : Bool)
    (align : CellAlign) (entering : Bool) (st : RState) : String × RState :=
  if !entering then
    let r1 := stOutOneOf P st isHeader "</th>" "</td>"
    let r2 := stCr P r1.2
    (r1.1 ++ r2.1, r2.2)
  else
    let openTag := if isHeader then "<th" else "<td"
    let attrs : List String :=
      if cellAlignment align ≠ "" then ["align=\"" ++ cellAlignment align ++ "\""] else []
    let r1 := if prev.isNone then stCr P st else ("", st)
    let r2 := stOutTag r1.2 openTag attrs
    (r1.1 ++ r2.1, r2.2)

/-- Source `Renderer.tableBody`. -/
def tableBodyR (P : Prims) (firstChildNone : Bool) (entering : Bool) (st : RState) :
    String × RState :=
  if entering then
    let r1 := stCr P st
    let r2 := stOuts P r1.2 "<tbody>"
    if firstChildNone then
      let r3 := stCr P r2.2
      (r1.1 ++ r2.1 ++ r3.1, r3.2)
    else (r1.1 ++ r2.1, r2.2)
  else
    let r1 := stOuts P st "</tbody>"
    let r2 := stCr P r1.2
    (r1.1 ++ r2.1, r2.2)

/-! ### Dispatch and walk -/

/-- The caller hook consulted at the start of `RenderNode`; `none`
means no hook is installed or the hook did not handle the node. -/
def hookRes (opts : RendererOptions) (d : NodeData) (entering : Bool) :
    Option (String × WalkStatus) :=
  match opts.renderNodeHook with
  | none => none
  | some f => f d entering

def withNext (r : Option (String × RState)) : Option (String × RState × WalkStatus) :=
  match r with
  | none => none
  | some (o, st) => some (o, st, WalkStatus.goToNext)

/-- Source `Renderer.RenderNode`: hook first, then dispatch on the node
kind.  `anc` is the list of ancestor data, nearest first (the Go code
reaches the parent and grandparent through `node.Parent`); `prev` and
`next` are the sibling data reached through `node.Prev()` /
`node.Next()`.  A node kind outside the fixed enumeration hits the
`panic` default branch: `none`. -/
def renderNode (P : Prims) (opts : RendererOptions) (anc : List NodeData)
    (prev next : Option NodeData) (n : Node) (entering : Bool) (st : RState) :
    Option (String × RState × WalkStatus) :=
  match hookRes opts n.dataOf entering with
  | some (o, ws) => some (o, st, ws)
  | none =>
    match n with
    | .mk d cs =>
      match d with
      | .text lit =>
        match textR P opts.flags anc.head? lit with
        | none => none
        | some o => some (o, st, WalkStatus.goToNext)
      | .softbreak => withNext (some (stCr P st))
      | .hardbreak => withNext (some (hardBreakR P opts.flags st))
      | .emph => withNext (some (stOutOneOf P st entering "<em>" "</em>"))
      | .strong => withNext (some (stOutOneOf P st entering "<strong>" "</strong>"))
      | .del => withNext (some (stOutOneOf P st entering "<del>" "</del>"))
      | .blockQuote =>
        withNext (some (stOutOneOfCr P st entering "<blockquote>" "</blockquote>"))
      | .link dest title noteID => withNext (linkR P opts dest title noteID entering st)
      | .image dest title =>
        if opts.flags.skipImages then some ("", st, WalkStatus.skipChildren)
        else if entering then withNext (imageEnterR P opts dest st)
        else withNext (some (imageExitR P title st))
      | .code lit => withNext (some (codeR P st lit))
      | .codeBlock lit info =>
        match anc.head? with
        | none => none
        | some pd => withNext (some (codeBlockR P pd lit info st))
      | .document => some ("", st, WalkStatus.goToNext)
      | .paragraph =>
        match anc.head? with
        | none => none
        | some pd =>
          withNext (some (paragraphR P pd anc.tail.head? prev next entering st))
      | .htmlSpan lit => withNext (some (spanR P opts.flags st lit))
      | .htmlBlock lit => withNext (some (htmlBlockR P opts.flags st lit))
      | .heading level hid tb =>
        if entering then withNext (some (headingEnterR P opts level hid tb st))
        else
          match anc.head? with
          | none => none
          | some pd => withNext (some (headingExitR P level pd next st))
      | .horizontalRule => withNext (some (horizontalRuleR P opts.flags st))
      | .list ordered definition tight fn =>
        match anc.head? with
        | none => none
        | some pd =>
          if entering then
            withNext (listEnterR P opts pd anc.tail.head? ordered definition tight fn st)
          else withNext (some (listExitR P pd next ordered definition fn st))
      | .listItem _ definition term refLink =>
        if entering then
          match anc.head? with
          | none => none
          | some pd => withNext (listItemEnterR P opts prev pd definition term refLink st)
        else withNext (some (listItemExitR P opts definition term refLink st))
      | .table => withNext (some (stOutOneOfCr P st entering "<table>" "</table>"))
      | .tableCell isHeader align =>
        withNext (some (tableCellR P prev isHeader align entering st))
      | .tableHead => withNext (some (stOutOneOfCr P st entering "<thead>" "</thead>"))
      | .tableBody => withNext (some (tableBodyR P cs.isEmpty entering st))
      | .tableRow => withNext (some (stOutOneOfCr P st entering "<tr>" "</tr>"))
      | .unknown _ => none

/-- Modelled from the spec: the node kinds that receive an exiting
visit in addition to the entering one (container kinds; the tree
walker lives in the external `ast` package). -/
def isContainer : NodeData → Bool
  | .text _ => false
  | .softbreak => false
  | .hardbreak => false
  | .code _ => false
  | .codeBlock _ _ => false
  | .htmlSpan _ => false
  | .htmlBlock _ => false
  | .horizontalRule => false
  | .unknown _ => false
  | _ => true

mutual

/-- Modelled from the spec: the tree walk (external `ast` package):
visit the node entering; on `goToNext` walk the children and, for
container kinds, visit the node exiting; `skipChildren` skips the rest
of the node; `terminate` (third component `true`) aborts the whole
walk. -/
def walkNode (P : Prims) (opts : RendererOptions) (anc : List NodeData)
    (prev next : Option NodeData) (n : Node) (st : RState) :
    Option (String × RState × Bool) :=
  match renderNode P opts anc prev next n true st with
  | none => none
  | some (o1, st1, ws) =>
    match ws with
    | .terminate => some (o1, st1, true)
    | .skipChildren => some (o1, st1, false)
    | .goToNext =>
      match n with
      | .mk d cs =>
        if isContainer d then
          match walkChildren P opts (d :: anc) none cs st1 with
          | none => none
          | some (o2, st2, true) => some (o1 ++ o2, st2, true)
          | some (o2, st2, false) =>
            match renderNode P opts anc prev next (Node.mk d cs) false st2 with
            | none => none
            | some (o3, st3, ws2) =>
              some (o1 ++ o2 ++ o3, st3,
                match ws2 with
                | .terminate => true
                | _ => false)
        else some (o1, st1, false)

/-- Walk a sibling list, threading the previous sibling's data and
looking ahead to the next sibling's. -/
def walkChildren (P : Prims) (opts : RendererOptions) (anc : List NodeData)
    (prev : Option NodeData) (cs : List Node) (st : RState) :
    Option (String × RState × Bool) :=
  match cs with
  | [] => some ("", st, false)
  | c :: rest =>
    match walkNode P opts anc prev (rest.head?.map Node.dataOf) c st with
    | none => none
    | some (o1, st1, true) => some (o1, st1, true)
    | some (o1, st1, false) =>
      match walkChildren P opts anc (some c.dataOf) rest st1 with
      | none => none
      | some (o2, st2, b) => some (o1 ++ o2, st2, b)

end

/-- Render a document: walk from the root with no ancestors or
siblings. -/
def renderDoc (P : Prims) (opts : RendererOptions) (doc : Node) (st : RState) :
    Option (String × RState × Bool) :=
  walkNode P opts [] none none doc st

/-- All flags cleared. -/
def flagsNone : Flags :=
  ⟨false, false, false, false, false, false, false, false, false, false⟩

/-- Modelled from the spec: a concrete instance of the escaping
primitive (escapes `&`, `<`, `>`, `"`), used only to instantiate
scenarios. -/
def escapeHTMLModel (l : List Nat) : String :=
  String.join (l.map (fun c =>
    if c = 38 then "&amp;"
    else if c = 60 then "&lt;"
    else if c = 62 then "&gt;"
    else if c = 34 then "&quot;"
    else String.mk [Char.ofNat c]))

/-- Modelled from the spec: a concrete instance of the renderer's
external collaborators, for scenario evaluation (smartypants and the
raw-tag stripper are not exercised by the scenarios). -/
def primsModel : Prims := ⟨escapeHTMLModel, escapeHTMLModel, id, id⟩

/-- Options with no flags, prefixes, or hook. -/
def optsNone : RendererOptions := ⟨[], "", "", "", "", flagsNone, none⟩

/-- A fresh render session state. -/
def st0 : RState := ⟨0, 0, []⟩

/-! ## Claim theorems on the renderer -/

/-- Boolean search for a byte/char pattern inside a string. -/
def containsSub (pat : List Char) : List Char → Bool
  | [] => pat.isEmpty
  | c :: rest => pat.isPrefixOf (c :: rest) || containsSub pat rest

def strContains (pat s : String) : Bool := containsSub pat.data s.data

theorem withNext_status {r : Option (String × RState)} {o : String} {st' : RState}
    {ws : WalkStatus} (h : withNext r = some (o, st', ws)) : ws = WalkStatus.goToNext := by
  cases r with
  | none => simp [withNext] at h
  | some p =>
    simp [withNext] at h
    exact h.2.2.symm

/-- Claim C1.  A Link node whose destination fails the skip/safety
policy (skip-links flag set, or safe-links-only set with a destination
neither accepted by `isSafeLink` nor `mailto:`-prefixed) renders as
`<tt>` on entering and `</tt>` on exiting — never as an anchor — and
the emitted text contains no `href` attribute, regardless of the
configured title, note id, or link attributes (at raw-tag-suppression
depth 0 and with no caller hook installed). -/
theorem renderNode_skipLink (P : Prims) (opts : RendererOptions) (anc : List NodeData)
    (prev next : Option NodeData) (dest title : List Nat) (noteID : Nat)
    (cs : List Node) (entering : Bool) (st : RState)
    (hhook : opts.renderNodeHook = none)
    (hskip : opts.flags.skipLinks = true ∨
      (opts.flags.safelink = true ∧ isSafeLink dest = false ∧ isMailto dest = false))
    (hdt : st.disableTags = 0) :
    renderNode P opts anc prev next (Node.mk (NodeData.link dest title noteID) cs)
        entering st =
      some ((if entering then "<tt>" else "</tt>"),
        { st with lastOutputLen := (if entering then "<tt>" else "</tt>").length },
        WalkStatus.goToNext) ∧
    strContains "href" (if entering then "<tt>" else "</tt>") = false := by
  have hns : needSkipLink opts.flags dest = true := by
    rcases hskip with h | ⟨h1, h2, h3⟩
    · simp [needSkipLink, h]
    · simp [needSkipLink, h1, h2, h3]
  constructor
  · simp only [renderNode, hookRes, hhook, Node.dataOf, linkR, hns, if_pos,
      stOutOneOf, stOuts, hdt, withNext]
    cases entering <;> simp [stOuts, hdt]
  · cases entering <;> decide

/-- Witness for `renderNode_skipLink`: destination `javascript:x` under
safe-links-only policy, with a title configured. -/
theorem renderNode_skipLink_witness :
    renderNode primsModel
        ⟨[], "", "", "", "", { flagsNone with safelink := true }, none⟩ [] none none
        (Node.mk (NodeData.link (bytesOf "javascript:x") (bytesOf "t") 0) []) true st0 =
      some ("<tt>", { st0 with lastOutputLen := ("<tt>" : String).length },
        WalkStatus.goToNext) ∧
      strContains "href" "<tt>" = false := by
  have h := renderNode_skipLink primsModel
    ⟨[], "", "", "", "", { flagsNone with safelink := true }, none⟩ [] none none
    (bytesOf "javascript:x") (bytesOf "t") 0 [] true st0 rfl
    (Or.inr (by decide)) rfl
  simpa using h

/-- Claim C9.  `isRelativeLink` reads `link[0]` with no length guard,
so it is undefined (out-of-bounds) on the empty destination; rendering
a non-footnote Link node with an empty destination that passes the
skip/safety policy reaches `appendLinkAttrs`, whose `isRelativeLink`
call makes the whole render abort (`none`): the renderer is partial on
empty link destinations. -/
theorem renderNode_empty_link_partial :
    isRelativeLink [] = none ∧
    ∀ (P : Prims) (opts : RendererOptions) (anc : List NodeData)
      (prev next : Option NodeData) (title : List Nat) (cs : List Node) (st : RState),
      opts.renderNodeHook = none →
      needSkipLink opts.flags [] = false →
      renderNode P opts anc prev next (Node.mk (NodeData.link [] title 0) cs) true st =
        none := by
  refine ⟨rfl, ?_⟩
  intro P opts anc prev next title cs st hhook hpass
  simp only [renderNode, hookRes, hhook, Node.dataOf, linkR, hpass, withNext]
  simp only [Bool.false_eq_true, if_false, if_pos rfl, linkEnterR, addAbsPre]
  by_cases habs : opts.absPre = []
  · simp [habs, linkEnterAttrs, appendLinkAttrs, isRelativeLink]
  · simp [habs, isRelativeLink]

/-- Witness for `renderNode_empty_link_partial` with every flag clear. -/
theorem renderNode_empty_link_partial_witness :
    renderNode primsModel optsNone [] none none
      (Node.mk (NodeData.link [] [] 0) []) true st0 = none :=
  renderNode_empty_link_partial.2 primsModel optsNone [] none none [] [] st0 rfl
    (by decide)

/-- Flags enabling `nofollow` and open-in-new-tab, as in the C6
counterexample. -/
def flagsNT : Flags := { flagsNone with nofollowLinks := true, hrefTargetBlank := true }

set_option maxRecDepth 4000 in
/-- Claim C6, counterexample.  For the non-relative destination
`http://a1` with `nofollow` and `target=_blank` enabled and no title,
the composed attribute list is `href`, then `target="_blank"`, then
`rel="nofollow"` — `appendLinkAttrs` appends `target` before `rel` —
not `href`, `rel`, `target` as the claim orders them. -/
theorem linkEnterAttrs_cex :
    linkEnterAttrs primsModel flagsNT (bytesOf "http://a1") [] =
      some ["href=\"http://a1\"", "target=\"_blank\"", "rel=\"nofollow\""] ∧
    linkEnterAttrs primsModel flagsNT (bytesOf "http://a1") [] ≠
      some ["href=\"http://a1\"", "rel=\"nofollow\"", "target=\"_blank\""] := by
  constructor
  · decide
  · decide

/-- Claim C6, amended.  For every safe, non-relative link rendered as
an anchor, the opening-tag attributes appear in the order: `href`
first, then the optional `target="_blank"`, then the optional
`rel="nofollow noreferrer"` (each token independently controlled by its
flag), then the optional title; for relative links only `href` and the
optional title are emitted (no `rel`, no `target`). -/
theorem linkEnterAttrs_order (P : Prims) (flags : Flags) (dest title : List Nat) :
    (isRelativeLink dest = some false →
      linkEnterAttrs P flags dest title =
        some (["href=\"" ++ P.escLink dest ++ "\""] ++
          (if flags.hrefTargetBlank then ["target=\"_blank\""] else []) ++
          (if flags.nofollowLinks || flags.noreferrerLinks then
            ["rel=\"" ++ String.intercalate " "
              ((if flags.nofollowLinks then ["nofollow"] else []) ++
                (if flags.noreferrerLinks then ["noreferrer"] else [])) ++ "\""]
          else []) ++
          (if title ≠ [] then ["title=\"" ++ P.escapeHTML title ++ "\""] else []))) ∧
    (isRelativeLink dest = some true →
      linkEnterAttrs P flags dest title =
        some (["href=\"" ++ P.escLink dest ++ "\""] ++
          (if title ≠ [] then ["title=\"" ++ P.escapeHTML title ++ "\""] else []))) := by
  constructor
  · intro hrel
    simp only [linkEnterAttrs, appendLinkAttrs, hrel]
    cases hn : flags.nofollowLinks <;> cases hr : flags.noreferrerLinks <;>
      cases ht : flags.hrefTargetBlank <;>
      by_cases htt : title = [] <;>
      simp [htt, String.intercalate]
  · intro hrel
    simp only [linkEnterAttrs, appendLinkAttrs, hrel]
    by_cases htt : title = [] <;> simp [htt]

/-- Witness for `linkEnterAttrs_order` at destination `http://a1` with
`nofollow` and new-tab enabled and no title. -/
theorem linkEnterAttrs_order_witness :
    linkEnterAttrs primsModel flagsNT (bytesOf "http://a1") [] =
      some (["href=\"" ++ primsModel.escLink (bytesOf "http://a1") ++ "\""] ++
        (if flagsNT.hrefTargetBlank then ["target=\"_blank\""] else []) ++
        (if flagsNT.nofollowLinks || flagsNT.noreferrerLinks then
          ["rel=\"" ++ String.intercalate " "
            ((if flagsNT.nofollowLinks then ["nofollow"] else []) ++
              (if flagsNT.noreferrerLinks then ["noreferrer"] else [])) ++ "\""]
        else []) ++
        (if ([] : List Nat) ≠ [] then
          ["title=\"" ++ primsModel.escapeHTML [] ++ "\""] else [])) :=
  (linkEnterAttrs_order primsModel flagsNT (bytesOf "http://a1") []).1 (by decide)

/-- The suppression condition exactly as claim C7 words it: the
grandparent is a tight list, or the parent is a definition-list term
item (with no requirement on the grandparent in the second case). -/
def claimC7Cond (parent : NodeData) (grandparent : Option NodeData) : Bool :=
  (match grandparent with
    | some gp => isListData gp && isListTight gp
    | none => false) || isListItemTerm parent

/-- The suppression condition as the code implements it: the
grandparent must be a list, and that list is tight or the parent is a
definition-list term item. -/
def codeC7Cond (parent : NodeData) (grandparent : Option NodeData) : Bool :=
  match grandparent with
  | some gp => isListData gp && (isListTight gp || isListItemTerm parent)
  | none => false

/-- Claim C7, counterexample.  For a paragraph whose parent is a
definition-list term item but whose grandparent is the document (not a
list), the claim's condition holds, yet `skipParagraphTags` returns
`false`: the code requires the grandparent to be a list in both
disjuncts. -/
theorem skipParagraphTags_cex :
    claimC7Cond (NodeData.listItem false false true none) (some NodeData.document) = true ∧
    skipParagraphTags (NodeData.listItem false false true none) (some NodeData.document)
      = false := by
  decide

/-- A list item holding one paragraph holding one text node. -/
def paraItem (s : String) : Node :=
  Node.mk (NodeData.listItem false false false none)
    [Node.mk NodeData.paragraph [Node.mk (NodeData.text (bytesOf s)) []]]

/-- A document holding one bullet list (tight or loose) of two
single-paragraph items. -/
def listDoc (tight : Bool) : Node :=
  Node.mk NodeData.document
    [Node.mk (NodeData.list false false tight false) [paraItem "one", paraItem "two"]]

set_option maxRecDepth 8000 in
/-- Claim C7, amended.  Paragraph tags (and the surrounding newline)
are suppressed exactly when the paragraph's grandparent is a list and
either that list is tight or the paragraph's parent is a
definition-list term item; consequently the tight two-item list of
paragraphs renders with no `<p>` anywhere, while the same structure as
a loose list renders `<p>`…`</p>` around each item's content. -/
theorem skipParagraphTags_spec :
    (∀ parent grandparent,
      skipParagraphTags parent grandparent = codeC7Cond parent grandparent) ∧
    ((renderDoc primsModel optsNone (listDoc true) st0).map (fun r => r.1) =
        some "<ul>\n<li>one</li>\n<li>two</li>\n</ul>\n" ∧
      strContains "<p>" "<ul>\n<li>one</li>\n<li>two</li>\n</ul>\n" = false) ∧
    ((renderDoc primsModel optsNone (listDoc false) st0).map (fun r => r.1) =
        some "<ul>\n<li><p>one</p></li>\n\n<li><p>two</p></li>\n</ul>\n" ∧
      strContains "<p>"
        "<ul>\n<li><p>one</p></li>\n\n<li><p>two</p></li>\n</ul>\n" = true) := by
  refine ⟨?_, ⟨by decide, by decide⟩, ⟨by decide, by decide⟩⟩
  intro parent grandparent
  cases grandparent with
  | none => rfl
  | some gp =>
    by_cases hl : isListData gp = true
    · simp [skipParagraphTags, codeC7Cond, hl]
    · simp [skipParagraphTags, codeC7Cond, hl]

/-- Node kinds inside the fixed renderable enumeration. -/
def knownKind : NodeData → Bool
  | .unknown _ => false
  | _ => true

/-- Claim C8, counterexample.  An Image node under the skip-images flag
is a known kind, yet `RenderNode` returns the skip-children walk
status, not continue-to-next, as the claim asserts for every known
kind. -/
theorem renderNode_status_cex :
    renderNode primsModel ⟨[], "", "", "", "", { flagsNone with skipImages := true }, none⟩
        [] none none (Node.mk (NodeData.image (bytesOf "x") none) []) true st0 =
      some ("", st0, WalkStatus.skipChildren) ∧
    WalkStatus.skipChildren ≠ WalkStatus.goToNext := by
  constructor
  · decide
  · decide

/-- With no hook handling the node, any completed dispatch returns the
continue-to-next status, except an Image node under the skip-images
flag, which returns skip-children. -/
theorem renderNode_status_hookfree {P : Prims} {opts : RendererOptions}
    {anc : List NodeData} {prev next : Option NodeData} {d : NodeData} {cs : List Node}
    {entering : Bool} {st : RState} {o : String} {st' : RState} {ws : WalkStatus}
    (hhook : opts.renderNodeHook = none)
    (h : renderNode P opts anc prev next (Node.mk d cs) entering st = some (o, st', ws)) :
    ws = WalkStatus.goToNext ∨
      (opts.flags.skipImages = true ∧
        (∃ dest title, d = NodeData.image dest title) ∧
        ws = WalkStatus.skipChildren) := by
  cases d <;> simp only [renderNode, hookRes, hhook, Node.dataOf] at h
  case text lit =>
    rcases ht : textR P opts.flags anc.head? lit with _ | o2
    · simp [ht] at h
    · simp only [ht] at h
      simp at h
      exact Or.inl h.2.2.symm
  case softbreak => exact Or.inl (withNext_status h)
  case hardbreak => exact Or.inl (withNext_status h)
  case emph => exact Or.inl (withNext_status h)
  case strong => exact Or.inl (withNext_status h)
  case del => exact Or.inl (withNext_status h)
  case blockQuote => exact Or.inl (withNext_status h)
  case link dest title noteID => exact Or.inl (withNext_status h)
  case image dest title =>
    by_cases hsi : opts.flags.skipImages = true
    · rw [if_pos hsi] at h
      simp at h
      exact Or.inr ⟨hsi, ⟨dest, title, rfl⟩, h.2.2.symm⟩
    · rw [if_neg hsi] at h
      split at h
      · exact Or.inl (withNext_status h)
      · exact Or.inl (withNext_status h)
  case code lit => exact Or.inl (withNext_status h)
  case codeBlock lit info =>
    rcases ha : anc.head? with _ | pd
    · simp [ha] at h
    · simp only [ha] at h
      exact Or.inl (withNext_status h)
  case document =>
    simp at h
    exact Or.inl h.2.2.symm
  case paragraph =>
    rcases ha : anc.head? with _ | pd
    · simp [ha] at h
    · simp only [ha] at h
      exact Or.inl (withNext_status h)
  case htmlSpan lit => exact Or.inl (withNext_status h)
  case htmlBlock lit => exact Or.inl (withNext_status h)
  case heading level hid tb =>
    split at h
    · exact Or.inl (withNext_status h)
    · rcases ha : anc.head? with _ | pd
      · simp [ha] at h
      · simp only [ha] at h
        exact Or.inl (withNext_status h)
  case horizontalRule => exact Or.inl (withNext_status h)
  case list ordered definition tight fn =>
    rcases ha : anc.head? with _ | pd
    · simp [ha] at h
    · simp only [ha] at h
      split at h <;> exact Or.inl (withNext_status h)
  case listItem ordered definition term refLink =>
    split at h
    · rcases ha : anc.head? with _ | pd
      · simp [ha] at h
      · simp only [ha] at h
        exact Or.inl (withNext_status h)
    · exact Or.inl (withNext_status h)
  case table => exact Or.inl (withNext_status h)
  case tableCell isHeader align => exact Or.inl (withNext_status h)
  case tableHead => exact Or.inl (withNext_status h)
  case tableBody => exact Or.inl (withNext_status h)
  case tableRow => exact Or.inl (withNext_status h)
  case unknown tag => simp at h

/-- Claim C8, amended.  With no caller hook handling the node: a node
whose kind is outside the fixed enumeration makes `RenderNode` abort
the render fatally (the `panic` default branch — `none`), never
skipping it or emitting partial markup; a node of a known kind, when
its handler completes, returns the continue-to-next walk status —
except an Image node under the skip-images flag, which returns
skip-children (and renders nothing). -/
theorem renderNode_dispatch (P : Prims) (opts : RendererOptions) (anc : List NodeData)
    (prev next : Option NodeData) (n : Node) (entering : Bool) (st : RState)
    (hhook : opts.renderNodeHook = none) :
    (knownKind n.dataOf = false →
      renderNode P opts anc prev next n entering st = none) ∧
    (∀ o st' ws, renderNode P opts anc prev next n entering st = some (o, st', ws) →
      ws = WalkStatus.goToNext ∨
        (opts.flags.skipImages = true ∧
          (∃ dest title, n.dataOf = NodeData.image dest title) ∧
          ws = WalkStatus.skipChildren)) := by
  obtain ⟨d, cs⟩ := n
  constructor
  · intro hk
    cases d <;> simp [knownKind, Node.dataOf] at hk ⊢ <;>
      simp [renderNode, hookRes, hhook]
  · intro o st' ws h
    exact renderNode_status_hookfree hhook h

/-- Witness for `renderNode_dispatch`: an unknown node kind aborts; a
known Paragraph node (in a document) continues to the next node. -/
theorem renderNode_dispatch_witness :
    renderNode primsModel optsNone [] none none
      (Node.mk (NodeData.unknown "mystery") []) true st0 = none :=
  (renderNode_dispatch primsModel optsNone [] none none
    (Node.mk (NodeData.unknown "mystery") []) true st0 rfl).1 (by decide)

/-! ### Suppression-depth bookkeeping (claim C10) -/

theorem stOuts_disable (P : Prims) (st : RState) (s : String) :
    (stOuts P st s).2.disableTags = st.disableTags := rfl

theorem stOut_disable (P : Prims) (st : RState) (d : List Nat) :
    (stOut P st d).2.disableTags = st.disableTags := rfl

theorem stCr_disable (P : Prims) (st : RState) :
    (stCr P st).2.disableTags = st.disableTags := by
  rw [stCr]
  split <;> rfl

theorem stOutTag_disable (st : RState) (name : String) (attrs : List String) :
    (stOutTag st name attrs).2.disableTags = st.disableTags := rfl

theorem stOutOneOf_disable (P : Prims) (st : RState) (b : Bool) (f s : String) :
    (stOutOneOf P st b f s).2.disableTags = st.disableTags := by
  rw [stOutOneOf]
  split <;> rfl

theorem stOutOneOfCr_disable (P : Prims) (st : RState) (b : Bool) (f s : String) :
    (stOutOneOfCr P st b f s).2.disableTags = st.disableTags := by
  rw [stOutOneOfCr]
  split <;> simp [stCr_disable, stOuts_disable]

theorem stOutHR_disable (P : Prims) (flags : Flags) (st : RState) :
    (stOutHR P flags st).2.disableTags = st.disableTags :=
  stOutOneOf_disable P st _ _ _

theorem hardBreakR_disable (P : Prims) (flags : Flags) (st : RState) :
    (hardBreakR P flags st).2.disableTags = st.disableTags := by
  rw [hardBreakR]
  simp [stCr_disable, stOutOneOf_disable]

theorem spanR_disable (P : Prims) (flags : Flags) (st : RState) (lit : List Nat) :
    (spanR P flags st lit).2.disableTags = st.disableTags := by
  rw [spanR]
  split <;> rfl

theorem htmlBlockR_disable (P : Prims) (flags : Flags) (st : RState) (lit : List Nat) :
    (htmlBlockR P flags st lit).2.disableTags = st.disableTags := by
  rw [htmlBlockR]
  split
  · rfl
  · simp [stCr_disable, stOut_disable]

theorem codeR_disable (P : Prims) (st : RState) (lit : List Nat) :
    (codeR P st lit).2.disableTags = st.disableTags := by
  simp [codeR, stOuts_disable]

theorem linkEnterR_disable (P : Prims) (opts : RendererOptions) (dest0 title : List Nat)
    (noteID : Nat) (st : RState) {o : String} {st' : RState}
    (h : linkEnterR P opts dest0 title noteID st = some (o, st')) :
    st'.disableTags = st.disableTags := by
  rw [linkEnterR] at h
  split at h
  · exact absurd h (by simp)
  · split at h
    · rw [Option.some_inj] at h
      have h2 : st' = (stOuts P st (footnoteRef opts.footnoteAnchorPre dest0 noteID)).2 := by
        rw [h]
      rw [h2, stOuts_disable]
    · split at h
      · exact absurd h (by simp)
      · rw [Option.some_inj] at h
        next attrs heq =>
        have h2 : st' = (stOutTag st "<a" attrs).2 := by rw [h]
        rw [h2, stOutTag_disable]

theorem linkExitR_disable (P : Prims) (noteID : Nat) (st : RState) :
    (linkExitR P noteID st).2.disableTags = st.disableTags := by
  rw [linkExitR]
  split <;> rfl

theorem linkR_disable (P : Prims) (opts : RendererOptions) (dest title : List Nat)
    (noteID : Nat) (entering : Bool) (st : RState) {o : String} {st' : RState}
    (h : linkR P opts dest title noteID entering st = some (o, st')) :
    st'.disableTags = st.disableTags := by
  rw [linkR] at h
  split at h
  · rw [Option.some_inj] at h
    have h2 : st' = (stOutOneOf P st entering "<tt>" "</tt>").2 := by rw [h]
    rw [h2, stOutOneOf_disable]
  · split at h
    · exact linkEnterR_disable P opts dest title noteID st h
    · rw [Option.some_inj] at h
      have h2 : st' = (linkExitR P noteID st).2 := by rw [h]
      rw [h2, linkExitR_disable]

theorem paragraphR_disable (P : Prims) (parent : NodeData)
    (grandparent : Option NodeData) (prev next : Option NodeData) (entering : Bool)
    (st : RState) :
    (paragraphR P parent grandparent prev next entering st).2.disableTags
      = st.disableTags := by
  rw [paragraphR]
  split
  · rfl
  · split
    · rw [paragraphEnterR.eq_def]
      simp only [stOuts_disable]
      split <;> split <;>
        simp [stCr_disable, stOuts_disable] <;> split <;> simp [stCr_disable]
    · rw [paragraphExitR]
      split <;> simp [stCr_disable, stOuts_disable]

theorem headingEnterR_disable (P : Prims) (opts : RendererOptions) (level : Nat)
    (hid : String) (tb : Bool) (st : RState) :
    (headingEnterR P opts level hid tb st).2.disableTags = st.disableTags := by
  rw [headingEnterR]
  simp only [stOutTag_disable]
  split <;> simp [stCr_disable, stOutTag_disable]

theorem headingExitR_disable (P : Prims) (level : Nat) (parent : NodeData)
    (next : Option NodeData) (st : RState) :
    (headingExitR P level parent next st).2.disableTags = st.disableTags := by
  rw [headingExitR]
  split <;> simp [stCr_disable, stOuts_disable]

theorem horizontalRuleR_disable (P : Prims) (flags : Flags) (st : RState) :
    (horizontalRuleR P flags st).2.disableTags = st.disableTags := by
  simp [horizontalRuleR, stCr_disable, stOutHR_disable]

theorem listEnterNotes_disable (P : Prims) (flags : Flags) (fn : Bool) (st : RState) :
    (listEnterNotes P flags fn st).2.disableTags = st.disableTags := by
  rw [listEnterNotes]
  split <;> simp [stCr_disable, stOuts_disable, stOutHR_disable]

theorem listEnterNested_disable (P : Prims) (parent : NodeData)
    (grandparent : Option NodeData) (st : RState) {r2 : String × RState}
    (h : listEnterNested P parent grandparent st = some r2) :
    r2.2.disableTags = st.disableTags := by
  rw [listEnterNested.eq_def] at h
  split at h
  · split at h
    · exact absurd h (by simp)
    · rw [Option.some_inj] at h
      rw [← h]
      split <;> simp [stCr_disable]
  · rw [Option.some_inj] at h
    rw [← h]

theorem listEnterR_disable (P : Prims) (opts : RendererOptions) (parent : NodeData)
    (grandparent : Option NodeData) (ordered definition tight fn : Bool) (st : RState)
    {o : String} {st' : RState}
    (h : listEnterR P opts parent grandparent ordered definition tight fn st
      = some (o, st')) :
    st'.disableTags = st.disableTags := by
  rw [listEnterR] at h
  split at h
  · exact absurd h (by simp)
  · next r2 heq =>
    rw [Option.some_inj] at h
    have h2 := congrArg RState.disableTags (congrArg Prod.snd h)
    simp only [stCr_disable, stOutTag_disable] at h2
    rw [← h2, listEnterNested_disable P parent grandparent _ heq, stCr_disable,
      listEnterNotes_disable]

theorem listExitR_disable (P : Prims) (parent : NodeData) (next : Option NodeData)
    (ordered definition fn : Bool) (st : RState) :
    (listExitR P parent next ordered definition fn st).2.disableTags
      = st.disableTags := by
  rw [listExitR]
  simp only []
  split <;> split <;> split <;>
    simp [stCr_disable, stOuts_disable]

theorem listItemEnterR_disable (P : Prims) (opts : RendererOptions)
    (prev : Option NodeData) (parent : NodeData) (definition term : Bool)
    (refLink : Option (List Nat)) (st : RState) {o : String} {st' : RState}
    (h : listItemEnterR P opts prev parent definition term refLink st = some (o, st')) :
    st'.disableTags = st.disableTags := by
  rw [listItemEnterR.eq_def] at h
  split at h
  · exact absurd h (by simp)
  · cases refLink with
    | some rl =>
      rw [Option.some_inj] at h
      have h2 := congrArg RState.disableTags (congrArg Prod.snd h)
      rw [← h2]
      simp only [stOuts_disable]
      split <;> simp [stCr_disable]
    | none =>
      rw [Option.some_inj] at h
      have h2 := congrArg RState.disableTags (congrArg Prod.snd h)
      rw [← h2]
      simp only [stOuts_disable]
      split <;> simp [stCr_disable]

theorem listItemExitR_disable (P : Prims) (opts : RendererOptions)
    (definition term : Bool) (refLink : Option (List Nat)) (st : RState) :
    (listItemExitR P opts definition term refLink st).2.disableTags
      = st.disableTags := by
  rw [listItemExitR.eq_def]
  simp only [stCr_disable, stOuts_disable]
  split
  · split <;> simp [stCr_disable, stOuts_disable]
  · simp [stCr_disable, stOuts_disable]

theorem codeBlockR_disable (P : Prims) (parent : NodeData) (lit info : List Nat)
    (st : RState) :
    (codeBlockR P parent lit info st).2.disableTags = st.disableTags := by
  rw [codeBlockR]
  split <;> simp [stCr_disable, stOuts_disable, stOutTag_disable]

theorem tableCellR_disable (P : Prims) (prev : Option NodeData) (isHeader : Bool)
    (align : CellAlign) (entering : Bool) (st : RState) :
    (tableCellR P prev isHeader align entering st).2.disableTags = st.disableTags := by
  rw [tableCellR]
  split
  · simp [stCr_disable, stOutOneOf_disable]
  · simp only [stOutTag_disable]
    split <;> simp [stCr_disable, stOutTag_disable]

theorem tableBodyR_disable (P : Prims) (fcn : Bool) (entering : Bool) (st : RState) :
    (tableBodyR P fcn entering st).2.disableTags = st.disableTags := by
  rw [tableBodyR]
  split
  · split <;> simp [stCr_disable, stOuts_disable]
  · simp [stCr_disable, stOuts_disable]

theorem imageEnterR_disable (P : Prims) (opts : RendererOptions) (dest0 : List Nat)
    (st : RState) {o : String} {st' : RState}
    (h : imageEnterR P opts dest0 st = some (o, st')) :
    st'.disableTags = st.disableTags + 1 := by
  rw [imageEnterR] at h
  split at h
  · exact absurd h (by simp)
  · split at h
    · rw [Option.some_inj] at h
      have h2 := congrArg RState.disableTags (congrArg Prod.snd h)
      rw [← h2]
      simp [stOuts_disable]
    · rw [Option.some_inj] at h
      have h2 := congrArg RState.disableTags (congrArg Prod.snd h)
      rw [← h2]

theorem imageExitBody_disable (P : Prims) (title : Option (List Nat)) (st1 : RState) :
    (imageExitBody P title st1).2.disableTags = st1.disableTags := by
  rw [imageExitBody.eq_def]
  split
  · split <;> simp [stOuts_disable]
  · rfl

theorem imageExitR_disable (P : Prims) (title : Option (List Nat)) (st : RState) :
    (imageExitR P title st).2.disableTags = st.disableTags - 1 := by
  rw [imageExitR, imageExitBody_disable]

theorem withNext_inv {r : Option (String × RState)} {o : String} {st' : RState}
    {ws : WalkStatus} (h : withNext r = some (o, st', ws)) : r = some (o, st') := by
  cases r with
  | none => simp [withNext] at h
  | some x =>
    simp [withNext] at h
    rw [← h.1, ← h.2.1]

theorem pair_snd_of_some_eq {x : String × RState} {o : String} {st' : RState}
    (h : some x = some (o, st')) : st' = x.2 := by
  rw [Option.some_inj] at h
  rw [h]

/-- With no hook handling the node, `RenderNode` preserves the
raw-tag-suppression depth on every node except an Image node, which
increments it on entering and decrements it on exiting (or leaves the
state untouched when skipped). -/
theorem renderNode_disable_hookfree {P : Prims} {opts : RendererOptions}
    {anc : List NodeData} {prev next : Option NodeData} {d : NodeData} {cs : List Node}
    {entering : Bool} {st : RState} {o : String} {st' : RState} {ws : WalkStatus}
    (hhook : opts.renderNodeHook = none)
    (h : renderNode P opts anc prev next (Node.mk d cs) entering st = some (o, st', ws)) :
    ((∀ dest t, d ≠ NodeData.image dest t) → st'.disableTags = st.disableTags) ∧
    (∀ dest t, d = NodeData.image dest t →
      (ws = WalkStatus.skipChildren ∧ st' = st) ∨
      (ws = WalkStatus.goToNext ∧ entering = true ∧
        st'.disableTags = st.disableTags + 1) ∨
      (ws = WalkStatus.goToNext ∧ entering = false ∧
        st'.disableTags = st.disableTags - 1)) := by
  cases d <;> simp only [renderNode, hookRes, hhook, Node.dataOf] at h
  case text lit =>
    refine ⟨fun _ => ?_, by simp⟩
    rcases ht : textR P opts.flags anc.head? lit with _ | o2
    · simp [ht] at h
    · simp only [ht] at h
      simp at h
      rw [← h.2.1]
  case softbreak =>
    refine ⟨fun _ => ?_, by simp⟩
    rw [pair_snd_of_some_eq (withNext_inv h), stCr_disable]
  case hardbreak =>
    refine ⟨fun _ => ?_, by simp⟩
    rw [pair_snd_of_some_eq (withNext_inv h), hardBreakR_disable]
  case emph =>
    refine ⟨fun _ => ?_, by simp⟩
    rw [pair_snd_of_some_eq (withNext_inv h), stOutOneOf_disable]
  case strong =>
    refine ⟨fun _ => ?_, by simp⟩
    rw [pair_snd_of_some_eq (withNext_inv h), stOutOneOf_disable]
  case del =>
    refine ⟨fun _ => ?_, by simp⟩
    rw [pair_snd_of_some_eq (withNext_inv h), stOutOneOf_disable]
  case blockQuote =>
    refine ⟨fun _ => ?_, by simp⟩
    rw [pair_snd_of_some_eq (withNext_inv h), stOutOneOfCr_disable]
  case link dest title noteID =>
    refine ⟨fun _ => ?_, by simp⟩
    exact linkR_disable P opts dest title noteID entering st (withNext_inv h)
  case image dest title =>
    refine ⟨fun hne => absurd rfl (hne dest title), ?_⟩
    intro dest' t' hd
    obtain ⟨rfl, rfl⟩ : dest = dest' ∧ title = t' := by
      constructor <;> injection hd <;> assumption
    by_cases hsi : opts.flags.skipImages = true
    · rw [if_pos hsi] at h
      simp at h
      exact Or.inl ⟨h.2.2.symm, h.2.1.symm⟩
    · rw [if_neg hsi] at h
      split at h
      · next he =>
        refine Or.inr (Or.inl ⟨withNext_status h, he, ?_⟩)
        exact imageEnterR_disable P opts dest st (withNext_inv h)
      · next he =>
        refine Or.inr (Or.inr ⟨withNext_status h, by simpa using he, ?_⟩)
        rw [pair_snd_of_some_eq (withNext_inv h), imageExitR_disable]
  case code lit =>
    refine ⟨fun _ => ?_, by simp⟩
    rw [pair_snd_of_some_eq (withNext_inv h), codeR_disable]
  case codeBlock lit info =>
    refine ⟨fun _ => ?_, by simp⟩
    rcases ha : anc.head? with _ | pd
    · simp [ha] at h
    · simp only [ha] at h
      rw [pair_snd_of_some_eq (withNext_inv h), codeBlockR_disable]
  case document =>
    refine ⟨fun _ => ?_, by simp⟩
    simp at h
    rw [← h.2.1]
  case paragraph =>
    refine ⟨fun _ => ?_, by simp⟩
    rcases ha : anc.head? with _ | pd
    · simp [ha] at h
    · simp only [ha] at h
      rw [pair_snd_of_some_eq (withNext_inv h), paragraphR_disable]
  case htmlSpan lit =>
    refine ⟨fun _ => ?_, by simp⟩
    rw [pair_snd_of_some_eq (withNext_inv h), spanR_disable]
  case htmlBlock lit =>
    refine ⟨fun _ => ?_, by simp⟩
    rw [pair_snd_of_some_eq (withNext_inv h), htmlBlockR_disable]
  case heading level hid tb =>
    refine ⟨fun _ => ?_, by simp⟩
    split at h
    · rw [pair_snd_of_some_eq (withNext_inv h), headingEnterR_disable]
    · rcases ha : anc.head? with _ | pd
      · simp [ha] at h
      · simp only [ha] at h
        rw [pair_snd_of_some_eq (withNext_inv h), headingExitR_disable]
  case horizontalRule =>
    refine ⟨fun _ => ?_, by simp⟩
    rw [pair_snd_of_some_eq (withNext_inv h), horizontalRuleR_disable]
  case list ordered definition tight fn =>
    refine ⟨fun _ => ?_, by simp⟩
    rcases ha : anc.head? with _ | pd
    · simp [ha] at h
    · simp only [ha] at h
      split at h
      · exact listEnterR_disable P opts pd anc.tail.head? ordered definition tight fn st
          (withNext_inv h)
      · rw [pair_snd_of_some_eq (withNext_inv h), listExitR_disable]
  case listItem ordered definition term refLink =>
    refine ⟨fun _ => ?_, by simp⟩
    split at h
    · rcases ha : anc.head? with _ | pd
      · simp [ha] at h
      · simp only [ha] at h
        exact listItemEnterR_disable P opts prev pd definition term refLink st
          (withNext_inv h)
    · rw [pair_snd_of_some_eq (withNext_inv h), listItemExitR_disable]
  case table =>
    refine ⟨fun _ => ?_, by simp⟩
    rw [pair_snd_of_some_eq (withNext_inv h), stOutOneOfCr_disable]
  case tableCell isHeader align =>
    refine ⟨fun _ => ?_, by simp⟩
    rw [pair_snd_of_some_eq (withNext_inv h), tableCellR_disable]
  case tableHead =>
    refine ⟨fun _ => ?_, by simp⟩
    rw [pair_snd_of_some_eq (withNext_inv h), stOutOneOfCr_disable]
  case tableBody =>
    refine ⟨fun _ => ?_, by simp⟩
    rw [pair_snd_of_some_eq (withNext_inv h), tableBodyR_disable]
  case tableRow =>
    refine ⟨fun _ => ?_, by simp⟩
    rw [pair_snd_of_some_eq (withNext_inv h), stOutOneOfCr_disable]
  case unknown tag => simp at h

theorem renderNode_image_skip (P : Prims) (opts : RendererOptions) (anc : List NodeData)
    (prev next : Option NodeData) (dest : List Nat) (t : Option (List Nat))
    (cs : List Node) (entering : Bool) (st : RState)
    (hhook : opts.renderNodeHook = none) (hsi : opts.flags.skipImages = true) :
    renderNode P opts anc prev next (Node.mk (NodeData.image dest t) cs) entering st =
      some ("", st, WalkStatus.skipChildren) := by
  simp [renderNode, hookRes, hhook, Node.dataOf, hsi]

mutual

/-- With no hook installed, a completed walk of one node preserves the
raw-tag-suppression depth and never reports termination. -/
theorem walkNode_inv (P : Prims) (opts : RendererOptions) (anc : List NodeData)
    (prev next : Option NodeData) (n : Node) (st : RState) (o : String) (st' : RState)
    (b : Bool) (hhook : opts.renderNodeHook = none)
    (h : walkNode P opts anc prev next n st = some (o, st', b)) :
    st'.disableTags = st.disableTags ∧ b = false := by
  obtain ⟨d, cs⟩ := n
  rw [walkNode] at h
  cases hr : renderNode P opts anc prev next (Node.mk d cs) true st with
  | none => rw [hr] at h; exact absurd h (by simp)
  | some trip =>
    obtain ⟨o1, st1, ws⟩ := trip
    simp only [hr] at h
    have hws := renderNode_status_hookfree hhook hr
    have hdis := renderNode_disable_hookfree hhook hr
    cases ws with
    | terminate =>
      rcases hws with h1 | ⟨_, _, h3⟩
      · simp at h1
      · simp at h3
    | skipChildren =>
      injection h with hp
      injection hp with e1 hp2
      injection hp2 with e2 e3
      subst e2
      subst e3
      refine ⟨?_, rfl⟩
      rcases hws with h1' | ⟨hsi, ⟨dest, t, rfl⟩, _⟩
      · simp at h1'
      · rcases hdis.2 dest t rfl with ⟨_, rfl⟩ | ⟨hx, _, _⟩ | ⟨hx, _, _⟩
        · rfl
        · simp at hx
        · simp at hx
    | goToNext =>
      by_cases hcont : isContainer d = true
      · rw [if_pos hcont] at h
        cases hwc : walkChildren P opts (d :: anc) none cs st1 with
        | none => rw [hwc] at h; exact absurd h (by simp)
        | some trip2 =>
          obtain ⟨o2, st2, b2⟩ := trip2
          have hch := walkChildren_inv P opts (d :: anc) none cs st1 o2 st2 b2 hhook hwc
          cases b2 with
          | true => exact absurd hch.2 (by simp)
          | false =>
            simp only [hwc] at h
            cases hr2 : renderNode P opts anc prev next (Node.mk d cs) false st2 with
            | none => rw [hr2] at h; exact absurd h (by simp)
            | some trip3 =>
              obtain ⟨o3, st3, ws2⟩ := trip3
              simp only [hr2] at h
              have hws2 := renderNode_status_hookfree hhook hr2
              have hdis2 := renderNode_disable_hookfree hhook hr2
              injection h with hp
              injection hp with e1 hp2
              injection hp2 with e2 e3
              subst e2
              constructor
              · by_cases him : ∃ dest t, d = NodeData.image dest t
                · obtain ⟨dest, t, rfl⟩ := him
                  have hsi : ¬ opts.flags.skipImages = true := by
                    intro hsi
                    have hcontr := renderNode_image_skip P opts anc prev next dest t
                      cs true st hhook hsi
                    rw [hr] at hcontr
                    injection hcontr with hp'
                    injection hp' with f1 fp2
                    injection fp2 with f2 f3
                    exact absurd f3 (by simp)
                  rcases hdis.2 dest t rfl with ⟨hx, _⟩ | ⟨_, _, hx⟩ | ⟨_, hx, _⟩
                  · simp at hx
                  · rcases hdis2.2 dest t rfl with ⟨hy, _⟩ | ⟨_, hy, _⟩ | ⟨_, _, hy⟩
                    · rcases hws2 with h1' | ⟨hsi', _, _⟩
                      · rw [h1'] at hy
                        simp at hy
                      · exact absurd hsi' hsi
                    · simp at hy
                    · rw [hy, hch.1, hx]
                      omega
                  · simp at hx
                · have hne : ∀ dest t, d ≠ NodeData.image dest t := by
                    intro dest t hx
                    exact him ⟨dest, t, hx⟩
                  rw [hdis2.1 hne, hch.1, hdis.1 hne]
              · rcases hws2 with h1' | ⟨_, _, h3'⟩
                · subst h1'
                  exact e3.symm
                · subst h3'
                  exact e3.symm
      · rw [if_neg hcont] at h
        injection h with hp
        injection hp with e1 hp2
        injection hp2 with e2 e3
        subst e2
        subst e3
        refine ⟨?_, rfl⟩
        have hne : ∀ dest t, d ≠ NodeData.image dest t := by
          intro dest t hx
          subst hx
          exact hcont rfl
        exact hdis.1 hne

theorem walkChildren_inv (P : Prims) (opts : RendererOptions) (anc : List NodeData)
    (prev : Option NodeData) (cs : List Node) (st : RState) (o : String) (st' : RState)
    (b : Bool) (hhook : opts.renderNodeHook = none)
    (h : walkChildren P opts anc prev cs st = some (o, st', b)) :
    st'.disableTags = st.disableTags ∧ b = false := by
  match cs with
  | [] =>
    rw [walkChildren] at h
    injection h with hp
    injection hp with e1 hp2
    injection hp2 with e2 e3
    subst e2
    subst e3
    exact ⟨rfl, rfl⟩
  | c :: rest =>
    rw [walkChildren] at h
    cases hw : walkNode P opts anc prev (rest.head?.map Node.dataOf) c st with
    | none => rw [hw] at h; exact absurd h (by simp)
    | some trip =>
      obtain ⟨o1, st1, b1⟩ := trip
      have h1 := walkNode_inv P opts anc prev (rest.head?.map Node.dataOf) c st o1 st1
        b1 hhook hw
      cases b1 with
      | true => exact absurd h1.2 (by simp)
      | false =>
        simp only [hw] at h
        cases hwc : walkChildren P opts anc (some c.dataOf) rest st1 with
        | none => rw [hwc] at h; exact absurd h (by simp)
        | some trip2 =>
          obtain ⟨o2, st2, b2⟩ := trip2
          have h2 := walkChildren_inv P opts anc (some c.dataOf) rest st1 o2 st2 b2
            hhook hwc
          simp only [hwc] at h
          injection h with hp
          injection hp with e1 hp2
          injection hp2 with e2 e3
          subst e2
          subst e3
          exact ⟨by rw [h2.1, h1.1], h2.2⟩

end

theorem imageEnterR_deep (P : Prims) (opts : RendererOptions) (dest : List Nat)
    (st : RState) (habs : opts.absPre = []) (h : ¬ st.disableTags = 0) :
    imageEnterR P opts dest st =
      some ("", { st with disableTags := st.disableTags + 1 }) := by
  rw [imageEnterR]
  simp only [addAbsPre, if_pos habs]
  rw [if_neg h]

theorem imageExitBody_deep (P : Prims) (title : Option (List Nat)) (st1 : RState)
    (h : ¬ st1.disableTags = 0) : imageExitBody P title st1 = ("", st1) := by
  rw [imageExitBody.eq_def, if_neg h]

/-- Claim C10.  The raw-tag-suppression depth is balanced around every
Image node — entering always increments it and exiting always
decrements it — and the `<img src="…" alt="` prefix and `" />` suffix
are written only when the depth is 0 at that moment; consequently an
Image node nested inside another image's alt text (depth at least 1)
contributes no `<img>` markup at all: its walk emits exactly its
children's output, and the depth returns to its prior value.  (Stated
with no caller hook, images not skipped, and no absolute-link prefix,
whose presence makes the enter path abort on an empty destination.) -/
theorem image_suppression (P : Prims) (opts : RendererOptions) (anc : List NodeData)
    (prev next : Option NodeData) (dest : List Nat) (title : Option (List Nat))
    (cs : List Node) (st : RState)
    (hhook : opts.renderNodeHook = none)
    (hsi : opts.flags.skipImages = false)
    (habs : opts.absPre = []) :
    (∀ (st1 : RState) (o : String) (st2 : RState),
      imageEnterR P opts dest st1 = some (o, st2) →
        st2.disableTags = st1.disableTags + 1 ∧ (st1.disableTags ≠ 0 → o = "")) ∧
    (∀ (st1 : RState),
      (imageExitR P title st1).2.disableTags = st1.disableTags - 1 ∧
        (st1.disableTags - 1 ≠ 0 → (imageExitR P title st1).1 = "")) ∧
    (∀ (st1 : RState) (o : String) (st2 : RState),
      imageEnterR P opts dest st1 = some (o, st2) →
        (imageExitR P title st2).2.disableTags = st1.disableTags) ∧
    (1 ≤ st.disableTags →
      (walkNode P opts anc prev next (Node.mk (NodeData.image dest title) cs) st =
        match walkChildren P opts (NodeData.image dest title :: anc) none cs
            { st with disableTags := st.disableTags + 1 } with
        | none => none
        | some (oc, st2, _) =>
          some (oc, { st2 with disableTags := st2.disableTags - 1 }, false)) ∧
      ∀ oc st2 b2,
        walkChildren P opts (NodeData.image dest title :: anc) none cs
            { st with disableTags := st.disableTags + 1 } = some (oc, st2, b2) →
          st2.disableTags - 1 = st.disableTags) := by
  have henter : ∀ (st1 : RState) (o : String) (st2 : RState),
      imageEnterR P opts dest st1 = some (o, st2) →
        st2.disableTags = st1.disableTags + 1 ∧ (st1.disableTags ≠ 0 → o = "") := by
    intro st1 o st2 h
    refine ⟨imageEnterR_disable P opts dest st1 h, ?_⟩
    intro hd
    rw [imageEnterR_deep P opts dest st1 habs hd] at h
    injection h with hp
    injection hp with e1 e2
    exact e1.symm
  have hexit : ∀ (st1 : RState),
      (imageExitR P title st1).2.disableTags = st1.disableTags - 1 ∧
        (st1.disableTags - 1 ≠ 0 → (imageExitR P title st1).1 = "") := by
    intro st1
    refine ⟨imageExitR_disable P title st1, ?_⟩
    intro hd
    rw [imageExitR, imageExitBody_deep P title _ hd]
  refine ⟨henter, hexit, ?_, ?_⟩
  · intro st1 o st2 h
    rw [imageExitR_disable, (henter st1 o st2 h).1]
    omega
  · intro hdeep
    have hne : ¬ st.disableTags = 0 := by omega
    have ha : imageEnterR P opts dest st =
        some ("", { st with disableTags := st.disableTags + 1 }) :=
      imageEnterR_deep P opts dest st habs hne
    have hrenter : renderNode P opts anc prev next
        (Node.mk (NodeData.image dest title) cs) true st =
        some ("", { st with disableTags := st.disableTags + 1 },
          WalkStatus.goToNext) := by
      simp [renderNode, hookRes, hhook, Node.dataOf, hsi, withNext, ha]
    constructor
    · rw [walkNode, hrenter]
      simp only [isContainer, if_pos rfl]
      cases hwc : walkChildren P opts (NodeData.image dest title :: anc) none cs
          { st with disableTags := st.disableTags + 1 } with
      | none => rfl
      | some trip =>
        obtain ⟨oc, st2, b2⟩ := trip
        have hch := walkChildren_inv P opts (NodeData.image dest title :: anc) none cs
          { st with disableTags := st.disableTags + 1 } oc st2 b2 hhook hwc
        cases b2 with
        | true => exact absurd hch.2 (by simp)
        | false =>
          simp only []
          have hst2 : st2.disableTags = st.disableTags + 1 := by
            simpa using hch.1
          have hb : imageExitR P title st2 =
              ("", { st2 with disableTags := st2.disableTags - 1 }) := by
            rw [imageExitR, imageExitBody_deep]
            simp
            omega
          have hrexit : renderNode P opts anc prev next
              (Node.mk (NodeData.image dest title) cs) false st2 =
              some ("", { st2 with disableTags := st2.disableTags - 1 },
                WalkStatus.goToNext) := by
            simp [renderNode, hookRes, hhook, Node.dataOf, hsi, withNext, hb]
          rw [hrexit]
          simp [String.append_empty]
    · intro oc st2 b2 hwc
      have hch := walkChildren_inv P opts (NodeData.image dest title :: anc) none cs
        { st with disableTags := st.disableTags + 1 } oc st2 b2 hhook hwc
      rw [hch.1]
      simp

/-- Witness for `image_suppression`: an image at suppression depth 1
(inside another image's alt text) with a text child. -/
theorem image_suppression_witness :
    (⟨0, 2, []⟩ : RState).disableTags = (⟨0, 1, []⟩ : RState).disableTags + 1 ∧
    (imageExitR primsModel none (⟨0, 2, []⟩ : RState)).2.disableTags =
      (⟨0, 2, []⟩ : RState).disableTags - 1 ∧
    (walkNode primsModel optsNone [] none none
        (Node.mk (NodeData.image (bytesOf "i") none)
          [Node.mk (NodeData.text (bytesOf "x")) []]) ⟨0, 1, []⟩ =
      match walkChildren primsModel optsNone [NodeData.image (bytesOf "i") none] none
          [Node.mk (NodeData.text (bytesOf "x")) []] ⟨0, 2, []⟩ with
      | none => none
      | some (oc, st2, _) =>
        some (oc, { st2 with disableTags := st2.disableTags - 1 }, false)) := by
  have H := image_suppression primsModel optsNone [] none none (bytesOf "i") none
    [Node.mk (NodeData.text (bytesOf "x")) []] ⟨0, 1, []⟩ rfl rfl rfl
  exact ⟨(H.1 ⟨0, 1, []⟩ "" ⟨0, 2, []⟩ (by decide)).1, (H.2.1 ⟨0, 2, []⟩).1,
    (H.2.2.2 (by decide)).1⟩

end MarkdownHtml
